import Mathlib

/-!
Verification of the VDO recovery journal (`recoveryJournal.c`) and hash lock
(`hashLock.c`) against their natural-language specification.

The development is a shallow embedding: C structs become Lean structures,
stateful C functions become pure functions on those structures, intrusive
rings and wait queues become Lean lists (front of the list = head of the
ring / oldest waiter), machine integers become `Nat` with explicit
`% 2 ^ 64` where unsigned wraparound matters, and fallible functions return
`Except`/`Option`/`Bool`.  Helpers whose C source is not part of this
repository snapshot (`recoveryJournalBlock.c`, `waitQueue.c`, `lockCounter.c`,
`hashZone.c`, `buffer.c`, `header.c`, `journalPoint.h`) are modelled from the
specification; each such definition says so in its doc comment.
-/

set_option autoImplicit false

universe u

/-- Pointwise update of a table indexed by `Nat` (models writing through a
pointer to one element owned by a table). -/
def upd {α : Type u} (f : Nat → α) (i : Nat) (x : α) : Nat → α :=
  fun n => if n = i then x else f n

/-! ### Journal points and their ordering -/

/-- A point in the recovery journal: `(sequence_number, entry_count)`.
Mirrors `struct journal_point` used for `data_vio->recoveryJournalPoint`. -/
structure JournalPoint where
  sequenceNumber : Nat
  entryCount : Nat
deriving DecidableEq

/-- Modelled from the spec: `before_journal_point` (from the missing
`journalPoint.h`) is the strict lexicographic order on
`(sequence_number, entry_index)` used by `continue_committed_waiter`'s
ordering assertion. -/
def before_journal_point (a b : JournalPoint) : Prop :=
  a.sequenceNumber < b.sequenceNumber ∨
    (a.sequenceNumber = b.sequenceNumber ∧ a.entryCount < b.entryCount)

instance (a b : JournalPoint) : Decidable (before_journal_point a b) :=
  inferInstanceAs (Decidable (_ ∨ _))

/-! ### The commit-notification machine (claim C1)

State of the recovery journal restricted to the data that flows through
`assign_entry`, `commit_recovery_block`, `complete_write` and
`notify_commit_waiters`: the ring of active tail blocks with their waiter
queues, the tail sequence number, and the commit point.  Waiters are
represented by the only datum the notification path reads from a `data_vio`:
its `recoveryJournalPoint`. -/

/-- One `struct recovery_journal_block`, restricted to the fields used by the
commit/notify path.  `entryWaiters`/`commitWaiters` hold the journal points of
the DataVIOs queued on the block (front of the list = oldest waiter). -/
structure RJBlock where
  sequenceNumber : Nat
  entryCount : Nat
  uncommittedEntryCount : Nat
  entriesInCommit : Nat
  committing : Bool
deriving DecidableEq

/-- The waiter queues of a block; kept outside `RJBlock` would complicate
nothing, so they are fields of `RJTailBlock` below. -/
structure RJTailBlock extends RJBlock where
  entryWaiters : List JournalPoint
  commitWaiters : List JournalPoint
deriving DecidableEq

/-- The recovery journal restricted to the commit-notification path.
`activeBlocks` is the `active_tail_blocks` ring, front first (oldest block
first, `journal->active_block` is the last element). -/
structure RJ1State where
  activeBlocks : List RJTailBlock
  freeBlockCount : Nat
  tail : Nat
  lastWriteAcknowledged : Nat
  commitPoint : JournalPoint
  readOnly : Bool
deriving DecidableEq

/-- Journal state as built by `make_recovery_journal`: empty active ring,
`tail = 1`, a zeroed commit point (the struct is allocated zeroed), and
`tail_buffer_size` free blocks. -/
def rjInit (tailBufferSize : Nat) : RJ1State :=
  { activeBlocks := []
    freeBlockCount := tailBufferSize
    tail := 1
    lastWriteAcknowledged := 1
    commitPoint := ⟨0, 0⟩
    readOnly := false }

/-- All queued journal points of a block, in ring order: the commit waiters
(older entries, already handed to a commit) before the entry waiters. -/
def blockPoints (b : RJTailBlock) : List JournalPoint :=
  b.commitWaiters ++ b.entryWaiters

/-- `assign_entry` together with `enqueue_recovery_block_entry`: record the
point `(block->sequence_number, block->entry_count)` in the data_vio, append
it to the block's entry waiters, and bump the entry counts.  The target is
`journal->active_block`, i.e. the last block of the active ring; a full or
missing active block is a no-op here because `prepare_to_assign_entry` never
lets `assign_entry` run in that situation.  (`enqueue_recovery_block_entry`
is modelled from the spec: the missing `recoveryJournalBlock.c` appends the
data_vio to `entry_waiters` and increments the entry counts.) -/
def rjAdmit (epb : Nat) : List RJTailBlock → List RJTailBlock
  | [] => []
  | [b] =>
    if b.entryCount = epb then [b]
    else
      [{ b with
          entryWaiters := b.entryWaiters ++ [⟨b.sequenceNumber, b.entryCount⟩]
          entryCount := b.entryCount + 1
          uncommittedEntryCount := b.uncommittedEntryCount + 1 }]
  | b :: c :: rest => b :: rjAdmit epb (c :: rest)

/-- The entry-admission event on the journal state. -/
def rjAdmitEvent (epb : Nat) (j : RJ1State) : RJ1State :=
  { j with activeBlocks := rjAdmit epb j.activeBlocks }

/-- A freshly initialized tail block (`initialize_recovery_block`, modelled
from the spec: a recycled block restarts with the journal's current tail
sequence number and no entries or waiters). -/
def freshTailBlock (seq : Nat) : RJTailBlock :=
  { sequenceNumber := seq
    entryCount := 0
    uncommittedEntryCount := 0
    entriesInCommit := 0
    committing := false
    entryWaiters := []
    commitWaiters := [] }

/-- `advance_tail`: pop a free block, push it at the tail of the active ring
initialized with sequence number `journal->tail`, then advance the tail.
(The `set_journal_tail` overflow check and `advance_block_map_era` touch
state outside this machine; read-only entry is a separate event.) -/
def rjAdvanceTail (j : RJ1State) : RJ1State :=
  match j.freeBlockCount with
  | 0 => j
  | n + 1 =>
    { j with
        activeBlocks := j.activeBlocks ++ [freshTailBlock j.tail]
        freeBlockCount := n
        tail := j.tail + 1 }

/-- Modelled from the spec: `commit_recovery_block` (missing
`recoveryJournalBlock.c`) snapshots `entries_in_commit` as the number of
queued entry waiters, marks the block committing, and moves the entry
waiters onto the commit waiter queue in order. -/
def commitBlock (b : RJTailBlock) : RJTailBlock :=
  if b.committing ∨ b.entryWaiters = [] then b
  else
    { b with
        committing := true
        entriesInCommit := b.entryWaiters.length
        commitWaiters := b.commitWaiters ++ b.entryWaiters
        entryWaiters := [] }

/-- Replace the `i`-th element of a list by `f` of it. -/
def modifyIdx {α : Type u} (f : α → α) : Nat → List α → List α
  | _, [] => []
  | 0, a :: l => f a :: l
  | i + 1, a :: l => a :: modifyIdx f i l

/-- The `startCommit i` event: commit the `i`-th active block (any block can
be issued by `write_blocks`, full blocks from `pending_writes` as well as the
partially-filled active block). -/
def rjStartCommit (j : RJ1State) (i : Nat) : RJ1State :=
  { j with activeBlocks := modifyIdx commitBlock i j.activeBlocks }

/-- The block-level part of `complete_write`: the commit finished, so the
committed entries are no longer uncommitted and the block stops committing. -/
def completeBlock (b : RJTailBlock) : RJTailBlock :=
  { b with
      committing := false
      uncommittedEntryCount := b.uncommittedEntryCount - b.entriesInCommit
      entriesInCommit := 0 }

/-- `continue_committed_waiter` run over a whole queue of released waiters:
each release asserts `before_journal_point(commit_point, vio.point)` and then
advances `journal->commit_point` to the released point, so after the fold
the commit point is the last released point. -/
def advanceCommitPoint (cp : JournalPoint) (released : List JournalPoint) : JournalPoint :=
  released.foldl (fun _ p => p) cp

/-- Result of `notify_commit_waiters`: the surviving active ring, the final
commit point, the free-block count after recycling, and the released journal
points in release order. -/
structure NotifyResult where
  blocks : List RJTailBlock
  commitPoint : JournalPoint
  freeBlockCount : Nat
  released : List JournalPoint
deriving DecidableEq

/-- `notify_commit_waiters`: walk the active ring from the front; stop at the
first committing block; release each walked block's commit waiters (in
read-only mode also its entry waiters) through `continue_committed_waiter`;
recycle a block (`recycle_journal_block`, return it to the free list) when in
read-only mode or when it is clean and full, otherwise stop.
`is_recovery_block_dirty` / `is_recovery_block_full` are modelled from the
spec: dirty iff `uncommitted_entry_count > 0`, full iff
`entry_count = entries_per_block`.  The source's infinite-loop assertion is
subsumed by structural recursion on the ring. -/
def notifyLoop (readOnly : Bool) (epb : Nat) :
    List RJTailBlock → JournalPoint → Nat → NotifyResult
  | [], cp, free => ⟨[], cp, free, []⟩
  | b :: rest, cp, free =>
    if b.committing then ⟨b :: rest, cp, free, []⟩
    else
      let cp1 := advanceCommitPoint cp b.commitWaiters
      if readOnly then
        let cp2 := advanceCommitPoint cp1 b.entryWaiters
        let r := notifyLoop readOnly epb rest cp2 (free + 1)
        ⟨r.blocks, r.commitPoint, r.freeBlockCount,
          b.commitWaiters ++ b.entryWaiters ++ r.released⟩
      else if 0 < b.uncommittedEntryCount ∨ ¬b.entryCount = epb then
        ⟨{ b with commitWaiters := [] } :: rest, cp1, free, b.commitWaiters⟩
      else
        let r := notifyLoop readOnly epb rest cp1 (free + 1)
        ⟨r.blocks, r.commitPoint, r.freeBlockCount, b.commitWaiters ++ r.released⟩

/-- `notify_commit_waiters` on the journal state, returning the released
points alongside the new state. -/
def notify_commit_waiters (epb : Nat) (j : RJ1State) : RJ1State × List JournalPoint :=
  let r := notifyLoop j.readOnly epb j.activeBlocks j.commitPoint j.freeBlockCount
  ({ j with
      activeBlocks := r.blocks
      commitPoint := r.commitPoint
      freeBlockCount := r.freeBlockCount },
    r.released)

/-- `complete_write` for the `i`-th active block: clear the committing state
and the in-commit counters, advance `last_write_acknowledged` if this block's
sequence number exceeds it (never regressing it), then run
`notify_commit_waiters`. -/
def rjCompleteWrite (epb : Nat) (j : RJ1State) (i : Nat) : RJ1State × List JournalPoint :=
  match j.activeBlocks[i]? with
  | none => (j, [])
  | some b =>
    if b.committing then
      notify_commit_waiters epb
        { j with
            activeBlocks := modifyIdx completeBlock i j.activeBlocks
            lastWriteAcknowledged := max j.lastWriteAcknowledged b.sequenceNumber }
    else (j, [])

/-- Entering read-only mode: `check_for_drain_complete` then runs
`notify_commit_waiters`, which in read-only mode flushes commit and entry
waiters of every non-committing block.  (It also drains the admission
queues through `continue_waiter`, which does not touch the commit point.) -/
def rjEnterReadOnly (epb : Nat) (j : RJ1State) : RJ1State × List JournalPoint :=
  notify_commit_waiters epb { j with readOnly := true }

/-- The events of the commit/notification machine: an entry admission
(`assign_entry`), a tail advance (`advance_tail`), issuing a block commit
(`write_block`/`commit_recovery_block`), a commit completion
(`complete_write`), and the journal going read-only. -/
inductive RJEvent where
  | admitEntry
  | advanceTail
  | startCommit (i : Nat)
  | completeWrite (i : Nat)
  | enterReadOnly
deriving DecidableEq

/-- One step of the machine: the next state and the journal points released
by `continue_committed_waiter` during the step, in release order. -/
def rjStep (epb : Nat) (j : RJ1State) : RJEvent → RJ1State × List JournalPoint
  | .admitEntry => (rjAdmitEvent epb j, [])
  | .advanceTail => (rjAdvanceTail j, [])
  | .startCommit i => (rjStartCommit j i, [])
  | .completeWrite i => rjCompleteWrite epb j i
  | .enterReadOnly => rjEnterReadOnly epb j

/-- Run a sequence of events, concatenating the release logs. -/
def rjRun (epb : Nat) (j : RJ1State) : List RJEvent → RJ1State × List JournalPoint
  | [] => (j, [])
  | e :: es =>
    let s := rjStep epb j e
    let t := rjRun epb s.1 es
    (t.1, s.2 ++ t.2)

/-! ### The recovery journal counters, admission, reaping, and encoding

A second view of `struct recovery_journal` carrying the sequence-number
counters, admission accounting, lock counter, and persisted statistics used
by claims C2, C3, C5, C6, C7 and C10. -/

/-- Nominal VDO/UDS error codes (the numeric values of the C enums are
implementation constants; only their distinctness matters here). -/
def VDO_READ_ONLY : Nat := 1

def VDO_JOURNAL_OVERFLOW : Nat := 2

def VDO_RECOVERY_JOURNAL_FULL : Nat := 3

def VDO_INCORRECT_COMPONENT : Nat := 4

def VDO_UNSUPPORTED_VERSION : Nat := 5

def UDS_BUFFER_ERROR : Nat := 6

def UDS_ALLOCATION_ERROR : Nat := 7

def VDO_ASSERT_ERROR : Nat := 8

/-- The zone types of the lock counter (`ZONE_TYPE_*`). -/
inductive ZoneType where
  | journalZone
  | logicalZone
  | physicalZone
deriving DecidableEq

/-- Modelled from the spec: the lock counter (missing `lockCounter.c`) keeps
a per-zone reference count for each journal block slot, indexed here by
zone type, zone id, and block number. -/
structure LockCounter where
  counts : ZoneType → Nat → Nat → Nat

/-- Modelled from the spec: `acquire_lock_count_reference` atomically
increments the per-zone count of a slot. -/
def acquire_lock_count_reference (lc : LockCounter) (blockNumber : Nat)
    (zoneType : ZoneType) (zoneId : Nat) : LockCounter :=
  { counts := fun t z b =>
      if t = zoneType ∧ z = zoneId ∧ b = blockNumber then lc.counts t z b + 1
      else lc.counts t z b }

/-- Modelled from the spec: `release_lock_count_reference` decrements the
per-zone count of a slot. -/
def release_lock_count_reference (lc : LockCounter) (blockNumber : Nat)
    (zoneType : ZoneType) (zoneId : Nat) : LockCounter :=
  { counts := fun t z b =>
      if t = zoneType ∧ z = zoneId ∧ b = blockNumber then lc.counts t z b - 1
      else lc.counts t z b }

/-- Modelled from the spec: `release_journal_zone_reference_from_other_zone`
releases one journal-zone (per-entry) reference of a slot without posting a
callback; the journal zone has a single zone id 0. -/
def release_journal_zone_reference_from_other_zone (lc : LockCounter)
    (blockNumber : Nat) : LockCounter :=
  release_lock_count_reference lc blockNumber ZoneType.journalZone 0

/-- Modelled from the spec: `initialize_lock_count` (journal thread only)
sets the journal-zone per-entry counter of a fresh block's slot. -/
def init_lock_count (lc : LockCounter) (blockNumber : Nat) (value : Nat) : LockCounter :=
  { counts := fun t z b =>
      if t = ZoneType.journalZone ∧ z = 0 ∧ b = blockNumber then value
      else lc.counts t z b }

/-- Admin states used by the journal core (`AdminStateCode`). -/
inductive AdminState where
  | normalOperation
  | suspended
  | saving
  | saved
  | draining
  | quiescent
deriving DecidableEq

/-- `is_saved` on the admin state. -/
def is_saved : AdminState → Bool
  | .saved => true
  | _ => false

/-- The write policies of the physical layer. -/
inductive WritePolicy where
  | sync
  | async
  | asyncUnsafe
deriving DecidableEq

/-- The active tail block as seen by `prepare_to_assign_entry` /
`advance_tail`: its sequence number, entry count and physical block number
(`journal->active_block`, or `none` for a NULL pointer). -/
structure RJActiveBlock where
  sequenceNumber : Nat
  entryCount : Nat
  blockNumber : Nat
deriving DecidableEq

/-- `struct recovery_journal`: the counter/accounting fields, the admin and
read-only state, the active block, and the lock counter.  The read-only
notifier is represented by `readOnlyError` (`none` = not read-only,
`some e` = read-only with first error `e`). -/
structure RecoveryJournal where
  tail : Nat
  appendPointSeq : Nat
  lastWriteAcknowledged : Nat
  blockMapHead : Nat
  slabJournalHead : Nat
  blockMapReapHead : Nat
  slabJournalReapHead : Nat
  blockMapHeadBlockNumber : Nat
  slabJournalHeadBlockNumber : Nat
  availableSpace : Nat
  pendingDecrementCount : Nat
  logicalBlocksUsed : Nat
  blockMapDataBlocks : Nat
  entriesPerBlock : Nat
  size : Nat
  reaping : Bool
  adminState : AdminState
  readOnlyError : Option Nat
  lockCounter : LockCounter
  diskFullCount : Nat
  activeBlock : Option RJActiveBlock
  freeTailBlockCount : Nat

/-- Modelled from the spec: `get_recovery_journal_block_number` (missing
`recoveryJournalInternals.h`) maps a sequence number to its slot in the
journal partition, wrapping modulo the journal size. -/
def get_recovery_journal_block_number (j : RecoveryJournal) (sequence : Nat) : Nat :=
  sequence % j.size

/-- `get_recovery_journal_head`: the minimum of the block map head and the
slab journal head. -/
def get_recovery_journal_head (j : RecoveryJournal) : Nat :=
  min j.blockMapHead j.slabJournalHead

/-- `enter_journal_read_only_mode`: tell the read-only notifier, which
records the first error and is idempotent afterwards.
(`check_for_drain_complete`, also invoked here, releases waiters tracked in
the block-level machine above and does not touch these counters.) -/
def enter_journal_read_only_mode (j : RecoveryJournal) (errorCode : Nat) : RecoveryJournal :=
  match j.readOnlyError with
  | none => { j with readOnlyError := some errorCode }
  | some e => { j with readOnlyError := some e }

/-- `set_journal_tail`: sequence numbers above `1 << 48` are unsupported, so
crossing that bound enters read-only mode with `VDO_JOURNAL_OVERFLOW`; the
tail is stored in either case. -/
def set_journal_tail (j : RecoveryJournal) (tail : Nat) : RecoveryJournal :=
  let j1 := if 2 ^ 48 ≤ tail then enter_journal_read_only_mode j VDO_JOURNAL_OVERFLOW else j
  { j1 with tail := tail }

/-- Unsigned 64-bit subtraction `a - b` as computed by the C expression on
`uint64_t` operands (both below `2 ^ 64`). -/
def usub64 (a b : Nat) : Nat :=
  (a + 2 ^ 64 - b) % 2 ^ 64

/-- `check_for_entry_space`: an increment needs
`available_space - pending_decrement_count > 1` (evaluated in `uint64_t`
arithmetic); a decrement needs `available_space > 0`. -/
def check_for_entry_space (j : RecoveryJournal) (increment : Bool) : Bool :=
  if increment then decide (1 < usub64 j.availableSpace j.pendingDecrementCount)
  else decide (0 < j.availableSpace)

/-- Modelled from the spec: `is_recovery_block_full` (missing
`recoveryJournalBlock.h`) — a NULL block reads as full, otherwise full iff
the entry count has reached `entries_per_block`. -/
def is_recovery_block_full (block : Option RJActiveBlock) (epb : Nat) : Bool :=
  match block with
  | none => true
  | some b => decide (b.entryCount = epb)

/-- Modelled from the spec: `is_recovery_block_empty` — empty iff the entry
count is zero. -/
def is_recovery_block_empty (block : Option RJActiveBlock) : Bool :=
  match block with
  | none => true
  | some b => decide (b.entryCount = 0)

/-- `advance_tail`: pop a free block (failing if none is left, which leaves
`active_block` NULL), initialize it from the current tail, push it on the
active ring, and advance the tail through `set_journal_tail`.
(`advance_block_map_era` notifies the block map, outside this state.) -/
def advance_tail (j : RecoveryJournal) : Bool × RecoveryJournal :=
  match j.freeTailBlockCount with
  | 0 => (false, { j with activeBlock := none })
  | n + 1 =>
    let j1 := { j with
        activeBlock := some ⟨j.tail, 0, get_recovery_journal_block_number j j.tail⟩
        freeTailBlockCount := n }
    (true, set_journal_tail j1 (j1.tail + 1))

/-- Set the journal-zone per-entry count for the active block's slot to
`entries_per_block + 1` (one per entry plus the block's own reference). -/
def init_active_lock_count (j : RecoveryJournal) : RecoveryJournal :=
  match j.activeBlock with
  | none => j
  | some b =>
    { j with lockCounter := init_lock_count j.lockCounter b.blockNumber (j.entriesPerBlock + 1) }

/-- `prepare_to_assign_entry`: check admission space (a refused decrement is
fatal: read-only with `VDO_RECOVERY_JOURNAL_FULL`); advance the tail if the
active block is full; refuse a fresh block when the journal is out of
on-disk space (bumping the `disk_full` event count); initialize the lock
count of a fresh block. -/
def prepare_to_assign_entry (j : RecoveryJournal) (increment : Bool) :
    Bool × RecoveryJournal :=
  if check_for_entry_space j increment = false then
    if increment then (false, j)
    else (false, enter_journal_read_only_mode j VDO_RECOVERY_JOURNAL_FULL)
  else
    let step1 : Bool × RecoveryJournal :=
      if is_recovery_block_full j.activeBlock j.entriesPerBlock then advance_tail j
      else (true, j)
    if step1.1 = false then (false, step1.2)
    else
      let j1 := step1.2
      if is_recovery_block_empty j1.activeBlock = false then (true, j1)
      else if j1.size < j1.tail - get_recovery_journal_head j1 then
        (false, { j1 with diskFullCount := j1.diskFullCount + 1 })
      else (true, init_active_lock_count j1)

/-- One iteration bound for the reap loops: each iteration advances the reap
head by one and the loop stops at `last_write_acknowledged`, so
`lwa - reap_head` iterations always suffice. -/
def reapLoop (locked : Nat → Bool) (size lwa : Nat) :
    Nat → Nat → Nat → Nat × Nat
  | 0, reapHead, headBlockNumber => (reapHead, headBlockNumber)
  | gas + 1, reapHead, headBlockNumber =>
    if reapHead < lwa ∧ locked headBlockNumber = false then
      reapLoop locked size lwa gas (reapHead + 1)
        (if headBlockNumber + 1 = size then 0 else headBlockNumber + 1)
    else (reapHead, headBlockNumber)

/-- `finish_reaping`: apply the reap heads to the heads, credit the freed
space, and clear `reaping`.  (`check_slab_journal_commit_threshold`,
`assign_entries` and `check_for_drain_complete`, called next, act on the
slab depot, admission queues and admin state outside these counters.) -/
def finish_reaping (j : RecoveryJournal) : RecoveryJournal :=
  let oldHead := get_recovery_journal_head j
  let j1 := { j with
      blockMapHead := j.blockMapReapHead
      slabJournalHead := j.slabJournalReapHead }
  let blocksReaped := get_recovery_journal_head j1 - oldHead
  { j1 with
      availableSpace := j1.availableSpace + blocksReaped * j1.entriesPerBlock
      reaping := false }

/-- `reap_recovery_journal`: bail out if a reap is already in flight; advance
each reap head over consecutive unlocked slots strictly below
`last_write_acknowledged`, wrapping the head block numbers modulo the journal
size; return if neither head would move; in non-sync modes mark `reaping` and
launch a flush (whose completion calls `finish_reaping`); in sync mode apply
the new heads immediately.  `is_locked` is the lock counter's journal-thread
read of the per-zone aggregates, supplied here as the two oracle predicates
`lockedLogical`/`lockedPhysical`. -/
def reap_recovery_journal (j : RecoveryJournal)
    (lockedLogical lockedPhysical : Nat → Bool) (policy : WritePolicy) :
    RecoveryJournal :=
  if j.reaping then j
  else
    let bm := reapLoop lockedLogical j.size j.lastWriteAcknowledged
      (j.lastWriteAcknowledged - j.blockMapReapHead)
      j.blockMapReapHead j.blockMapHeadBlockNumber
    let sj := reapLoop lockedPhysical j.size j.lastWriteAcknowledged
      (j.lastWriteAcknowledged - j.slabJournalReapHead)
      j.slabJournalReapHead j.slabJournalHeadBlockNumber
    let j1 := { j with
        blockMapReapHead := bm.1
        blockMapHeadBlockNumber := bm.2
        slabJournalReapHead := sj.1
        slabJournalHeadBlockNumber := sj.2 }
    if j1.blockMapReapHead = j1.blockMapHead ∧ j1.slabJournalReapHead = j1.slabJournalHead then
      j1
    else if policy ≠ WritePolicy.sync then { j1 with reaping := true }
    else finish_reaping j1

/-- The `last_write_acknowledged` update performed by `complete_write` when
the write of the block with the given sequence number completes: advance it
if the block's sequence number exceeds it, never regress it. -/
def complete_write_ack (j : RecoveryJournal) (sequenceNumber : Nat) : RecoveryJournal :=
  if j.lastWriteAcknowledged < sequenceNumber then
    { j with lastWriteAcknowledged := sequenceNumber }
  else j

/-- The head-ordering invariant of the recovery journal:
`block_map_head ≤ block_map_reap_head ≤ last_write_acknowledged ≤ tail` and
`slab_journal_head ≤ slab_journal_reap_head ≤ last_write_acknowledged ≤ tail`. -/
def journal_head_invariant (j : RecoveryJournal) : Prop :=
  j.blockMapHead ≤ j.blockMapReapHead ∧
  j.blockMapReapHead ≤ j.lastWriteAcknowledged ∧
  j.slabJournalHead ≤ j.slabJournalReapHead ∧
  j.slabJournalReapHead ≤ j.lastWriteAcknowledged ∧
  j.lastWriteAcknowledged ≤ j.tail

instance (j : RecoveryJournal) : Decidable (journal_head_invariant j) :=
  inferInstanceAs (Decidable (_ ∧ _))

/-- `acquire_recovery_journal_block_reference`: a zero sequence number is an
immediate no-op; otherwise acquire a lock-count reference on the block
holding that sequence number. -/
def acquire_recovery_journal_block_reference (j : RecoveryJournal)
    (sequenceNumber : Nat) (zoneType : ZoneType) (zoneId : Nat) : RecoveryJournal :=
  if sequenceNumber = 0 then j
  else
    let blockNumber := get_recovery_journal_block_number j sequenceNumber
    { j with lockCounter :=
        acquire_lock_count_reference j.lockCounter blockNumber zoneType zoneId }

/-- `release_recovery_journal_block_reference`: a zero sequence number is an
immediate no-op; otherwise release a lock-count reference. -/
def release_recovery_journal_block_reference (j : RecoveryJournal)
    (sequenceNumber : Nat) (zoneType : ZoneType) (zoneId : Nat) : RecoveryJournal :=
  if sequenceNumber = 0 then j
  else
    let blockNumber := get_recovery_journal_block_number j sequenceNumber
    { j with lockCounter :=
        release_lock_count_reference j.lockCounter blockNumber zoneType zoneId }

/-- `release_per_entry_lock_from_other_zone`: a zero sequence number is an
immediate no-op; otherwise release a journal-zone per-entry reference from
off the journal thread. -/
def release_per_entry_lock_from_other_zone (j : RecoveryJournal)
    (sequenceNumber : Nat) : RecoveryJournal :=
  if sequenceNumber = 0 then j
  else
    let blockNumber := get_recovery_journal_block_number j sequenceNumber
    { j with lockCounter :=
        release_journal_zone_reference_from_other_zone j.lockCounter blockNumber }

/-! #### On-disk encoding of the journal component (claims C6, C7) -/

/-- Modelled from the spec: `put_uint32_le_into_buffer` (missing `buffer.c`)
writes four little-endian bytes. -/
def u32le (n : Nat) : List Nat :=
  [n % 2 ^ 8, n / 2 ^ 8 % 2 ^ 8, n / 2 ^ 16 % 2 ^ 8, n / 2 ^ 24 % 2 ^ 8]

/-- Modelled from the spec: `put_uint64_le_into_buffer` writes eight
little-endian bytes. -/
def u64le (n : Nat) : List Nat :=
  [n % 2 ^ 8, n / 2 ^ 8 % 2 ^ 8, n / 2 ^ 16 % 2 ^ 8, n / 2 ^ 24 % 2 ^ 8,
   n / 2 ^ 32 % 2 ^ 8, n / 2 ^ 40 % 2 ^ 8, n / 2 ^ 48 % 2 ^ 8, n / 2 ^ 56 % 2 ^ 8]

/-- Modelled from the spec: `get_uint32_le_from_buffer` consumes four bytes,
failing on a short buffer. -/
def readU32LE : List Nat → Option (Nat × List Nat)
  | b0 :: b1 :: b2 :: b3 :: rest =>
    some (b0 + 2 ^ 8 * b1 + 2 ^ 16 * b2 + 2 ^ 24 * b3, rest)
  | _ => none

/-- Modelled from the spec: `get_uint64_le_from_buffer` consumes eight bytes. -/
def readU64LE : List Nat → Option (Nat × List Nat)
  | b0 :: b1 :: b2 :: b3 :: b4 :: b5 :: b6 :: b7 :: rest =>
    some (b0 + 2 ^ 8 * b1 + 2 ^ 16 * b2 + 2 ^ 24 * b3 + 2 ^ 32 * b4 +
      2 ^ 40 * b5 + 2 ^ 48 * b6 + 2 ^ 56 * b7, rest)
  | _ => none

/-- Modelled from the spec: `struct header` (missing `header.h`) — component
id, version (major, minor), and payload size. -/
structure VDOHeader where
  id : Nat
  majorVersion : Nat
  minorVersion : Nat
  size : Nat
deriving DecidableEq

/-- Modelled from the spec: `encode_header` writes the id, the two version
words, and the size, all little-endian. -/
def encode_header (h : VDOHeader) : List Nat :=
  u32le h.id ++ u32le h.majorVersion ++ u32le h.minorVersion ++ u64le h.size

/-- Modelled from the spec: `decode_header` reads the fields back. -/
def decode_header (buf : List Nat) : Option (VDOHeader × List Nat) :=
  match readU32LE buf with
  | none => none
  | some (id, r1) =>
    match readU32LE r1 with
    | none => none
    | some (major, r2) =>
      match readU32LE r2 with
      | none => none
      | some (minor, r3) =>
        match readU64LE r3 with
        | none => none
        | some (size, r4) => some (⟨id, major, minor, size⟩, r4)

/-- The component id `RECOVERY_JOURNAL` (nominal enum value). -/
def RECOVERY_JOURNAL_COMPONENT : Nat := 2

/-- `RECOVERY_JOURNAL_HEADER_7_0`: id `RECOVERY_JOURNAL`, version 7.0, and
size 24 = `sizeof(struct recovery_journal_state_7_0)` (three packed `u64`). -/
def RECOVERY_JOURNAL_HEADER_7_0 : VDOHeader :=
  ⟨RECOVERY_JOURNAL_COMPONENT, 7, 0, 24⟩

/-- Modelled from the spec: `validate_header` (missing `header.c`) rejects a
mismatched component id, a mismatched version, and (with `exactSize`) a
mismatched size. -/
def validate_header (expected actual : VDOHeader) (exactSize : Bool) : Except Nat Unit :=
  if expected.id ≠ actual.id then Except.error VDO_INCORRECT_COMPONENT
  else if expected.majorVersion ≠ actual.majorVersion ∨
      expected.minorVersion ≠ actual.minorVersion then
    Except.error VDO_UNSUPPORTED_VERSION
  else if (if exactSize then expected.size ≠ actual.size else expected.size < actual.size) then
    Except.error VDO_INCORRECT_COMPONENT
  else Except.ok ()

/-- `struct recovery_journal_state_7_0`. -/
structure RecoveryJournalState70 where
  journal_start : Nat
  logical_blocks_used : Nat
  block_map_data_blocks : Nat
deriving DecidableEq

/-- `encode_recovery_journal`: the version-7.0 header followed by
`journal_start`, `logical_blocks_used` and `block_map_data_blocks` as
little-endian `u64`.  `journal_start` is the tail when the journal is saved,
otherwise the journal head (the first block that might still hold entries to
apply).  The C function's trailing ASSERT that the payload size matches the
header size is proved as part of claim C6. -/
def encode_recovery_journal (j : RecoveryJournal) : List Nat :=
  let journalStart :=
    if is_saved j.adminState then j.tail else get_recovery_journal_head j
  encode_header RECOVERY_JOURNAL_HEADER_7_0 ++
    u64le journalStart ++ u64le j.logicalBlocksUsed ++ u64le j.blockMapDataBlocks

/-- `decodeRecoveryJournalState_7_0`: read the three `u64` fields. -/
def decodeRecoveryJournalState_7_0 (buf : List Nat) :
    Option (RecoveryJournalState70 × List Nat) :=
  match readU64LE buf with
  | none => none
  | some (journalStart, r1) =>
    match readU64LE r1 with
    | none => none
    | some (logicalBlocksUsed, r2) =>
      match readU64LE r2 with
      | none => none
      | some (blockMapDataBlocks, r3) =>
        some (⟨journalStart, logicalBlocksUsed, blockMapDataBlocks⟩, r3)

/-- `initialize_journal_state`: reset the append point, the acknowledged
write, the heads and reap heads to the tail, and recompute the head block
numbers. -/
def init_journal_state (j : RecoveryJournal) : RecoveryJournal :=
  { j with
      appendPointSeq := j.tail
      lastWriteAcknowledged := j.tail
      blockMapHead := j.tail
      slabJournalHead := j.tail
      blockMapReapHead := j.tail
      slabJournalReapHead := j.tail
      blockMapHeadBlockNumber := get_recovery_journal_block_number j j.tail
      slabJournalHeadBlockNumber := get_recovery_journal_block_number j j.tail }

/-- `decode_recovery_journal`: decode and validate the header, decode the
7.0 state, install it (tail via `set_journal_tail`, then the statistics,
then `initialize_journal_state`), and force the admin state to suspended. -/
def decode_recovery_journal (j : RecoveryJournal) (buf : List Nat) :
    Except Nat RecoveryJournal :=
  match decode_header buf with
  | none => Except.error UDS_BUFFER_ERROR
  | some (header, rest) =>
    match validate_header RECOVERY_JOURNAL_HEADER_7_0 header true with
    | Except.error e => Except.error e
    | Except.ok _ =>
      match decodeRecoveryJournalState_7_0 rest with
      | none => Except.error UDS_BUFFER_ERROR
      | some (state, _) =>
        let j1 := set_journal_tail j state.journal_start
        let j2 := { j1 with
            logicalBlocksUsed := state.logical_blocks_used
            blockMapDataBlocks := state.block_map_data_blocks }
        let j3 := init_journal_state j2
        Except.ok { j3 with adminState := AdminState.suspended }

/-! ### The hash lock state machine (claims C4, C8, C9)

Shallow embedding of `hashLock.c` plus the hash zone interface it uses.
DataVIOs and hash locks are identified by `Nat` ids into two tables; the
intrusive `duplicateRing` and the wait queues become lists of ids (front of
the list = first/oldest member).  Asynchronous continuations that hop to
another zone thread and back (`launchDuplicateZoneCallback` /
`launchHashZoneCallback`) are composed directly, and calls that leave the
hash-lock state entirely (`compressData`, `finishDataVIO`,
`cancelCompression`'s packer message) are noted where they occur. -/

/-- The states of a hash lock (`HashLockState`). -/
inductive HashLockState where
  | initializing
  | querying
  | writing
  | locking
  | verifying
  | deduping
  | updating
  | unlocking
  | bypassing
  | destroying
deriving DecidableEq

/-- The fields of a `data_vio` read or written by `hashLock.c`. -/
structure DataVioState where
  hashLock : Option Nat
  isDuplicate : Bool
  hasAllocation : Bool
  dataBlock : Nat
  chunkName : Nat
  recoverySequenceNumber : Nat
deriving DecidableEq

/-- `struct hash_lock`.  The shared duplicate PBN lock is represented by
`hasDuplicateLock` (`duplicateLock != NULL`) together with
`duplicateLockIncrements`, the remaining increment budget of that PBN lock
(`lock->increment_limit` consumed by `claimPBNLockIncrement`). -/
structure HashLock where
  state : HashLockState
  hashName : Nat
  agent : Option Nat
  waiters : List Nat
  updateAdvice : Bool
  verified : Bool
  hasDuplicateLock : Bool
  duplicateLockIncrements : Nat
  duplicateRing : List Nat
  referenceCount : Nat
  maxReferences : Nat
deriving DecidableEq

/-- A hash lock fresh from the zone pool, keyed by `hash`: state
INITIALIZING, no agent, no waiters, no members. -/
def freshHashLock (hash : Nat) : HashLock :=
  { state := HashLockState.initializing
    hashName := hash
    agent := none
    waiters := []
    updateAdvice := false
    verified := false
    hasDuplicateLock := false
    duplicateLockIncrements := 0
    duplicateRing := []
    referenceCount := 0
    maxReferences := 0 }

/-- The state of one hash zone: the data_vio and hash-lock tables, the
hash → lock map, the lock pool, and the zone statistics counters. -/
structure HashZoneState where
  vioTable : Nat → DataVioState
  lockTable : Nat → HashLock
  lockMap : Nat → Option Nat
  lockPool : List Nat
  collisionCount : Nat
  dataMatchCount : Nat

/-- Apply an update to one hash lock in the table (writing through the
`struct hash_lock *` pointer). -/
def updLockF (s : HashZoneState) (l : Nat) (f : HashLock → HashLock) : HashZoneState :=
  { s with lockTable := upd s.lockTable l (f (s.lockTable l)) }

/-- Apply an update to one data_vio in the table. -/
def updVioF (s : HashZoneState) (v : Nat) (f : DataVioState → DataVioState) :
    HashZoneState :=
  { s with vioTable := upd s.vioTable v (f (s.vioTable v)) }

/-- Unsplice a data_vio's `hashLockNode` from a lock's `duplicateRing` and
drop its reference (the leave half of `setHashLock`). -/
def ringRemove (lk : HashLock) (v : Nat) : HashLock :=
  { lk with
      duplicateRing := lk.duplicateRing.erase v
      referenceCount := lk.referenceCount - 1 }

/-- Push a data_vio onto a lock's `duplicateRing`, count the reference, and
track the high-water mark (the join half of `setHashLock`). -/
def ringAdd (lk : HashLock) (v : Nat) : HashLock :=
  { lk with
      duplicateRing := lk.duplicateRing ++ [v]
      referenceCount := lk.referenceCount + 1
      maxReferences := max lk.maxReferences (lk.referenceCount + 1) }

/-- Write a data_vio's `hashLock` pointer. -/
def setVioLock (s : HashZoneState) (v : Nat) (newLock : Option Nat) : HashZoneState :=
  { s with vioTable := upd s.vioTable v { s.vioTable v with hashLock := newLock } }

/-- `setHashLock`: when leaving a lock, unsplice the data_vio from its ring
and decrement the reference count; when joining one, push it onto the ring
and increment the reference count. -/
def setHashLock (s : HashZoneState) (v : Nat) (newLock : Option Nat) : HashZoneState :=
  let s1 :=
    match (s.vioTable v).hashLock with
    | none => s
    | some oldLock =>
      setVioLock
        { s with lockTable := upd s.lockTable oldLock (ringRemove (s.lockTable oldLock) v) }
        v none
  match newLock with
  | none => s1
  | some nl =>
    setVioLock
      { s1 with lockTable := upd s1.lockTable nl (ringAdd (s1.lockTable nl) v) }
      v (some nl)

/-- `setHashLockState`. -/
def setHashLockState (s : HashZoneState) (l : Nat) (newState : HashLockState) :
    HashZoneState :=
  { s with lockTable := upd s.lockTable l { s.lockTable l with state := newState } }

/-- `setAgent`. -/
def setAgent (s : HashZoneState) (l : Nat) (newAgent : Option Nat) : HashZoneState :=
  { s with lockTable := upd s.lockTable l { s.lockTable l with agent := newAgent } }

/-- Modelled from the spec: `returnHashLockToZone` (missing `hashZone.c`)
removes the lock from the zone's map if it is the mapped lock for its hash,
resets it to INITIALIZING, and returns it to the pool. -/
def returnHashLockToZone (s : HashZoneState) (l : Nat) : HashZoneState :=
  let hash := (s.lockTable l).hashName
  let s1 :=
    if s.lockMap hash = some l then { s with lockMap := upd s.lockMap hash none } else s
  { s1 with
      lockTable := upd s1.lockTable l (freshHashLock hash)
      lockPool := l :: s1.lockPool }

/-- Modelled from the spec: `acquireHashLockFromZone` (missing `hashZone.c`)
returns the mapped lock for the hash or allocates one from the pool and maps
it; when `replaceLock` is supplied (a fork), the fresh lock supersedes the
old one in the lock map.  Fails only if the pool is exhausted. -/
def acquireHashLockFromZone (s : HashZoneState) (hash : Nat)
    (replaceLock : Option Nat) : Except Nat (HashZoneState × Nat) :=
  match replaceLock with
  | none =>
    match s.lockMap hash with
    | some l => Except.ok (s, l)
    | none =>
      match s.lockPool with
      | [] => Except.error UDS_ALLOCATION_ERROR
      | l :: rest =>
        Except.ok
          ({ s with
              lockPool := rest
              lockTable := upd s.lockTable l (freshHashLock hash)
              lockMap := upd s.lockMap hash (some l) }, l)
  | some _ =>
    match s.lockPool with
    | [] => Except.error UDS_ALLOCATION_ERROR
    | l :: rest =>
      Except.ok
        ({ s with
            lockPool := rest
            lockTable := upd s.lockTable l (freshHashLock hash)
            lockMap := upd s.lockMap hash (some l) }, l)

/-- `releaseHashLock`: leave the lock via `setHashLock(dataVIO, NULL)`; if
other DataVIOs still reference it, stop there; otherwise move it to
DESTROYING and return it to its zone. -/
def releaseHashLock (s : HashZoneState) (v : Nat) : HashZoneState :=
  match (s.vioTable v).hashLock with
  | none => s
  | some l =>
    let s1 := setHashLock s v none
    if 0 < (s1.lockTable l).referenceCount then s1
    else returnHashLockToZone (setHashLockState s1 l HashLockState.destroying) l

/-- `exitHashLock`: release the hash lock; `finishDataVIO` then completes the
data_vio outside the hash-lock state. -/
def exitHashLock (s : HashZoneState) (v : Nat) : HashZoneState :=
  releaseHashLock s v

/-- `compareDataVIOs` of the data layer: byte equality of the two blocks. -/
def compareDataVios (a b : DataVioState) : Bool :=
  decide (a.dataBlock = b.dataBlock)

/-- `isHashCollision`: an empty ring cannot collide; otherwise compare the
candidate against the first ring member, bumping the zone's collision or
data-match counter (the counter bumps are modelled from the spec's
`hashZone.c` interface). -/
def isHashCollision (s : HashZoneState) (l : Nat) (candidate : Nat) :
    Bool × HashZoneState :=
  match (s.lockTable l).duplicateRing with
  | [] => (false, s)
  | holder :: _ =>
    if compareDataVios (s.vioTable holder) (s.vioTable candidate) then
      (false, { s with dataMatchCount := s.dataMatchCount + 1 })
    else
      (true, { s with collisionCount := s.collisionCount + 1 })

/-- `assertHashLockPreconditions`: the entrant must not already hold a hash
lock (its ring node is empty exactly when it is on no `duplicateRing`) and
must not hold a recovery lock. -/
def assertHashLockPreconditions (dv : DataVioState) : Except Nat Unit :=
  if dv.hashLock ≠ none then Except.error VDO_ASSERT_ERROR
  else if dv.recoverySequenceNumber ≠ 0 then Except.error VDO_ASSERT_ERROR
  else Except.ok ()

/-- `acquireHashLock`: check the preconditions, get the zone's lock for the
data_vio's chunk name, and join it — unless the entrant's data differs from
the lock holders' (a hash collision), in which case return success without
setting the data_vio's `hashLock` pointer so that dedupe is bypassed. -/
def acquireHashLock (s : HashZoneState) (v : Nat) : Except Nat HashZoneState :=
  match assertHashLockPreconditions (s.vioTable v) with
  | Except.error e => Except.error e
  | Except.ok _ =>
    match acquireHashLockFromZone s (s.vioTable v).chunkName none with
    | Except.error e => Except.error e
    | Except.ok (s1, l) =>
      match isHashCollision s1 l v with
      | (true, s2) => Except.ok s2
      | (false, s2) => Except.ok (setHashLock s2 v (some l))

/-- `waitOnHashLock`: enqueue the data_vio on the lock's wait queue.  (When
the lock is WRITING, `cancelCompression(agent)` may additionally send the
waiter through the packer to dislodge the agent; that messaging lives in the
packer and does not change the hash-lock state modelled here.) -/
def waitOnHashLock (s : HashZoneState) (l : Nat) (v : Nat) : HashZoneState :=
  updLockF s l (fun lk => { lk with waiters := lk.waiters ++ [v] })

/-- `enterForkedLock` (WaiterCallback): bind the waiting data_vio to the new
hash lock and wait on that lock. -/
def enterForkedLock (s : HashZoneState) (newLock : Nat) (v : Nat) : HashZoneState :=
  waitOnHashLock (setHashLock s v (some newLock)) newLock v

/-- `compressWaiter` (WaiterCallback): clear `isDuplicate`; `compressData`
then re-launches the waiter on the plain write path outside this state. -/
def compressWaiter (s : HashZoneState) (v : Nat) : HashZoneState :=
  updVioF s v (fun dv => { dv with isDuplicate := false })

/-- `startBypassing`: enter BYPASSING, drop any pending advice update, flush
all waiters to the plain write path, and — when a duplicate PBN lock is held
(which requires an agent) — release it via `unlockDuplicatePBN` on the
duplicate zone, after which `finishBypassing` makes the agent exit the lock.
With no duplicate lock, a remaining agent is cleared and sent to
`compressData`. -/
def startBypassing (s : HashZoneState) (l : Nat) (agent : Option Nat) : HashZoneState :=
  let s1 := setHashLockState s l HashLockState.bypassing
  let s2 := updLockF s1 l (fun lk => { lk with updateAdvice := false })
  let ws := (s2.lockTable l).waiters
  let s3 := updLockF s2 l (fun lk => { lk with waiters := [] })
  let s4 := ws.foldl compressWaiter s3
  if (s4.lockTable l).hasDuplicateLock then
    match agent with
    | some a =>
      let s5 := updLockF s4 l (fun lk => { lk with hasDuplicateLock := false })
      exitHashLock s5 a
    | none => s4
  else
    match agent with
    | none => s4
    | some a =>
      let s5 := setAgent s4 l none
      compressWaiter s5 a

/-- `abortHashLock`: a lock already BYPASSING just loses the erroring
data_vio; a non-agent data_vio exits alone while others still share the lock,
or becomes the agent when it is the lone holder; then the lock starts
bypassing. -/
def abortHashLock (s : HashZoneState) (l : Nat) (v : Nat) : HashZoneState :=
  if (s.lockTable l).state = HashLockState.bypassing then exitHashLock s v
  else if some v ≠ (s.lockTable l).agent then
    if (s.lockTable l).agent ≠ none ∨ 1 < (s.lockTable l).referenceCount then
      exitHashLock s v
    else startBypassing (setAgent s l (some v)) l (some v)
  else startBypassing s l (some v)

/-- Search the wait queue for the first data_vio with an allocation; return
the waiters dequeued before it, the find, and the rest. -/
def splitFirstAlloc (p : Nat → Bool) : List Nat → List Nat × Option Nat × List Nat
  | [] => ([], none, [])
  | w :: ws =>
    if p w then ([], some w, ws)
    else
      let r := splitFirstAlloc p ws
      (w :: r.1, r.2.1, r.2.2)

/-- `selectWritingAgent`: move waiters to a temporary queue until one with an
allocation is found; if found, it becomes the agent and the old agent is
re-queued as the first waiter (the rest keep their arrival order); otherwise
everything is restored and the current agent is kept. -/
def selectWritingAgent (s : HashZoneState) (l : Nat) (agent : Nat) :
    HashZoneState × Nat :=
  let r := splitFirstAlloc (fun w => (s.vioTable w).hasAllocation) (s.lockTable l).waiters
  match r.2.1 with
  | some d =>
    (updLockF s l (fun lk => { lk with agent := some d, waiters := agent :: (r.1 ++ r.2.2) }), d)
  | none => (s, agent)

/-- `startWriting`: enter WRITING; an agent without an allocation is swapped
for a waiter that has one, and if nobody has an allocation the lock starts
bypassing.  (`cancelCompression` on a lock with waiters and the final
`compressData` act on the packer and the write path, outside this state.) -/
def startWriting (s : HashZoneState) (l : Nat) (agent : Nat) : HashZoneState :=
  let s0 := setHashLockState s l HashLockState.writing
  let r :=
    if (s0.vioTable agent).hasAllocation then (s0, agent)
    else selectWritingAgent s0 l agent
  if (r.1.vioTable r.2).hasAllocation = false then startBypassing r.1 l (some r.2)
  else r.1

/-- `forkHashLock`: acquire a fresh lock for the same chunk name, superseding
the old lock in the zone's map (aborting the old lock on allocation
failure); leave advice updates to the new lock only; move the new agent and
every waiter of the old lock over to the new lock; and start the new agent
writing. -/
def forkHashLock (s : HashZoneState) (oldLock : Nat) (newAgent : Nat) : HashZoneState :=
  match acquireHashLockFromZone s (s.vioTable newAgent).chunkName (some oldLock) with
  | Except.error _ => abortHashLock s oldLock newAgent
  | Except.ok (s1, newLock) =>
    let s2 := updLockF s1 oldLock (fun lk => { lk with updateAdvice := false })
    let s3 := updLockF s2 newLock (fun lk => { lk with updateAdvice := true })
    let s4 := setHashLock s3 newAgent (some newLock)
    let s5 := setAgent s4 newLock (some newAgent)
    let ws := (s5.lockTable oldLock).waiters
    let s6 := updLockF s5 oldLock (fun lk => { lk with waiters := [] })
    let s7 := ws.foldl (fun acc w => enterForkedLock acc newLock w) s6
    let s8 := updVioF s7 newAgent (fun dv => { dv with isDuplicate := false })
    startWriting s8 newLock newAgent

/-- `claimPBNLockIncrement` on the duplicate lock's remaining increment
budget: claim one if any remains. -/
def claimPBNLockIncrement (remaining : Nat) : Bool × Nat :=
  match remaining with
  | 0 => (false, 0)
  | n + 1 => (true, n)

/-- `launchDedupe`: claim an increment from the duplicate PBN lock unless the
data_vio already holds one; with no increments left, roll over by forking.
(On success, `setDuplicateLocation` and the `shareBlock` launch happen on
the duplicate zone, outside this state.) -/
def launchDedupe (s : HashZoneState) (l : Nat) (v : Nat) (hasClaim : Bool) :
    HashZoneState :=
  if hasClaim then s
  else
    let c := claimPBNLockIncrement (s.lockTable l).duplicateLockIncrements
    if c.1 then updLockF s l (fun lk => { lk with duplicateLockIncrements := c.2 })
    else forkHashLock s l v

/-! ### Invariants used in the proofs -/

/-- The commit point is strictly below the next point the block would hand
out, `(block.sequenceNumber, block.entryCount)`. -/
def cpBound (cp : JournalPoint) (b : RJTailBlock) : Prop :=
  cp.sequenceNumber < b.sequenceNumber ∨
    (cp.sequenceNumber = b.sequenceNumber ∧ cp.entryCount < b.entryCount)

/-- Well-formedness of one active tail block relative to the commit point and
the journal tail: every queued point carries the block's sequence number and
an entry index below the block's entry count; queued points have strictly
increasing entry indices; the block's sequence number is below the tail; and
the commit point is strictly below the block's next point and below every
queued point. -/
def blockInv (cp : JournalPoint) (tailSeq : Nat) (b : RJTailBlock) : Prop :=
  (∀ p ∈ blockPoints b, p.sequenceNumber = b.sequenceNumber ∧ p.entryCount < b.entryCount) ∧
  List.Pairwise (fun p q : JournalPoint => p.entryCount < q.entryCount) (blockPoints b) ∧
  b.sequenceNumber < tailSeq ∧
  cpBound cp b ∧
  (∀ p ∈ blockPoints b, before_journal_point cp p)

/-- Strict ordering of active blocks by sequence number. -/
def seqLt (a b : RJTailBlock) : Prop := a.sequenceNumber < b.sequenceNumber

/-- Precondition of `notifyLoop`: the ring is strictly ascending in sequence
number, every block is well-formed, and the commit point is below the tail. -/
def notifyPre (cp : JournalPoint) (tailSeq : Nat) (blocks : List RJTailBlock) : Prop :=
  List.Pairwise seqLt blocks ∧
  (∀ b ∈ blocks, blockInv cp tailSeq b) ∧
  cp.sequenceNumber < tailSeq

/-- The inductive invariant of the commit-notification machine. -/
def rjInv (j : RJ1State) : Prop :=
  notifyPre j.commitPoint j.tail j.activeBlocks

/-- Reference-counting invariant of the hash zone: every lock's
`referenceCount` equals the number of DataVIOs on its `duplicateRing`. -/
def hashRefInv (s : HashZoneState) : Prop :=
  ∀ l, (s.lockTable l).referenceCount = (s.lockTable l).duplicateRing.length

/-- Membership invariant of the hash zone: a data_vio whose `hashLock`
points at a lock is on that lock's `duplicateRing`. -/
def hashMemInv (s : HashZoneState) : Prop :=
  ∀ v l, (s.vioTable v).hashLock = some l → v ∈ (s.lockTable l).duplicateRing

/-- A zeroed lock counter, used by the concrete witness states. -/
def sampleLockCounter : LockCounter := ⟨fun _ _ _ => 0⟩

/-- A concrete journal state satisfying the head-ordering invariant, used by
the witnesses. -/
def sampleJournal : RecoveryJournal :=
  { tail := 8
    appendPointSeq := 8
    lastWriteAcknowledged := 6
    blockMapHead := 2
    slabJournalHead := 3
    blockMapReapHead := 4
    slabJournalReapHead := 5
    blockMapHeadBlockNumber := 4
    slabJournalHeadBlockNumber := 5
    availableSpace := 5
    pendingDecrementCount := 1
    logicalBlocksUsed := 10
    blockMapDataBlocks := 7
    entriesPerBlock := 311
    size := 32
    reaping := false
    adminState := AdminState.normalOperation
    readOnlyError := none
    lockCounter := sampleLockCounter
    diskFullCount := 0
    activeBlock := some ⟨7, 3, 7⟩
    freeTailBlockCount := 4 }

/-- Data_vio table for the witness hash zone: data_vio 1 holds lock 0 and
carries data block 42; every other data_vio is fresh with data block 7. -/
def sampleVioTable : Nat → DataVioState :=
  fun v => if v = 1 then ⟨some 0, false, true, 42, 0, 0⟩ else ⟨none, false, true, 7, 0, 0⟩

/-- Lock table for the witness hash zone: every slot is a lock on hash 0
whose ring holds data_vio 1. -/
def sampleLockTable : Nat → HashLock :=
  fun _ => { freshHashLock 0 with duplicateRing := [1], referenceCount := 1 }

/-- A concrete hash zone used by the witnesses: hash 0 maps to lock 0, lock 5
is pooled. -/
def sampleZone : HashZoneState :=
  { vioTable := sampleVioTable
    lockTable := sampleLockTable
    lockMap := fun h => if h = 0 then some 0 else none
    lockPool := [5]
    collisionCount := 0
    dataMatchCount := 0 }

/-- A concrete hash zone mid-dedupe used by the fork witness: lock 0 is
DEDUPING with members 1, 2 and 3, waiter 3, a duplicate PBN lock with no
increments left; data_vio 2 is the one entering. -/
def forkZone : HashZoneState :=
  { vioTable := fun v =>
      if v = 1 then ⟨some 0, false, true, 42, 0, 0⟩
      else if v = 2 then ⟨some 0, true, true, 42, 0, 0⟩
      else if v = 3 then ⟨some 0, false, false, 42, 0, 0⟩
      else ⟨none, false, true, 7, 0, 0⟩
    lockTable := fun l =>
      if l = 0 then
        { state := HashLockState.deduping
          hashName := 0
          agent := none
          waiters := [3]
          updateAdvice := true
          verified := true
          hasDuplicateLock := true
          duplicateLockIncrements := 0
          duplicateRing := [1, 2, 3]
          referenceCount := 3
          maxReferences := 3 }
      else freshHashLock 0
    lockMap := fun h => if h = 0 then some 0 else none
    lockPool := [5]
    collisionCount := 0
    dataMatchCount := 0 }

/-! ## Lemmas and theorems -/

theorem before_journal_point_trans {a b c : JournalPoint}
    (h1 : before_journal_point a b) (h2 : before_journal_point b c) :
    before_journal_point a c := by
  unfold before_journal_point at *
  omega

theorem advanceCommitPoint_eq_getLastD (cp : JournalPoint) (l : List JournalPoint) :
    advanceCommitPoint cp l = l.getLastD cp := by
  induction l generalizing cp with
  | nil => rfl
  | cons a l ih =>
    simp only [advanceCommitPoint, List.foldl_cons, List.getLastD_cons]
    exact ih a

theorem getLastD_mem_cons (l : List JournalPoint) (cp : JournalPoint) :
    l.getLastD cp ∈ cp :: l := by
  induction l generalizing cp with
  | nil => simp
  | cons a l ih =>
    simp only [List.getLastD_cons]
    rcases List.mem_cons.mp (ih a) with h | h
    · rw [h]
      exact List.mem_cons_of_mem _ (List.mem_cons_self _ _)
    · exact List.mem_cons_of_mem _ (List.mem_cons_of_mem _ h)

theorem getLastD_append (l1 l2 : List JournalPoint) (cp : JournalPoint) :
    (l1 ++ l2).getLastD cp = l2.getLastD (l1.getLastD cp) := by
  induction l1 generalizing cp with
  | nil => rfl
  | cons a l ih =>
    simp only [List.cons_append, List.getLastD_cons]
    exact ih a

theorem pairwise_le_getLastD {cp : JournalPoint} {l : List JournalPoint}
    (h : List.Pairwise before_journal_point (cp :: l)) :
    ∀ a ∈ cp :: l, a = l.getLastD cp ∨ before_journal_point a (l.getLastD cp) := by
  induction l generalizing cp with
  | nil =>
    intro a ha
    simp at ha
    simp [ha]
  | cons x xs ih =>
    intro a ha
    rw [List.pairwise_cons] at h
    simp only [List.getLastD_cons]
    rcases List.mem_cons.mp ha with rfl | ha
    · right
      have hmem := getLastD_mem_cons xs x
      exact h.1 _ hmem
    · exact ih h.2 a ha

theorem chain_append {cp : JournalPoint} {l1 l2 : List JournalPoint}
    (h1 : List.Pairwise before_journal_point (cp :: l1))
    (h2 : List.Pairwise before_journal_point (l1.getLastD cp :: l2)) :
    List.Pairwise before_journal_point (cp :: (l1 ++ l2)) := by
  have hrw : cp :: (l1 ++ l2) = (cp :: l1) ++ l2 := rfl
  rw [hrw, List.pairwise_append]
  rw [List.pairwise_cons] at h2
  refine ⟨h1, h2.2, ?_⟩
  intro a ha b hb
  rcases pairwise_le_getLastD h1 a ha with heq | hlt
  · rw [heq]; exact h2.1 b hb
  · exact before_journal_point_trans hlt (h2.1 b hb)

theorem blockInv_chain {cp : JournalPoint} {tailSeq : Nat} {b : RJTailBlock}
    (h : blockInv cp tailSeq b) :
    List.Pairwise before_journal_point (cp :: blockPoints b) := by
  rw [List.pairwise_cons]
  refine ⟨h.2.2.2.2, ?_⟩
  refine (h.2.1).imp_of_mem ?_
  intro p q hp hq hlt
  exact Or.inr ⟨by rw [(h.1 p hp).1, (h.1 q hq).1], hlt⟩

theorem blockInv_new_cp {cp cp' : JournalPoint} {tailSeq : Nat} {b x : RJTailBlock}
    (hx : blockInv cp tailSeq x) (hb : blockInv cp tailSeq b)
    (hseq : b.sequenceNumber < x.sequenceNumber)
    (hmem : cp' = cp ∨ cp' ∈ blockPoints b) :
    blockInv cp' tailSeq x := by
  rcases hmem with rfl | hmem
  · exact hx
  · obtain ⟨h1, h2, h3, _, _⟩ := hx
    have hcp' := hb.1 cp' hmem
    refine ⟨h1, h2, h3, ?_, ?_⟩
    · exact Or.inl (by rw [hcp'.1]; exact hseq)
    · intro p hp
      exact Or.inl (by rw [hcp'.1, (h1 p hp).1]; exact hseq)

theorem cp_new_lt_tail {cp cp' : JournalPoint} {tailSeq : Nat} {b : RJTailBlock}
    (hb : blockInv cp tailSeq b) (hcp : cp.sequenceNumber < tailSeq)
    (hmem : cp' = cp ∨ cp' ∈ blockPoints b) :
    cp'.sequenceNumber < tailSeq := by
  rcases hmem with rfl | hmem
  · exact hcp
  · rw [(hb.1 cp' hmem).1]
    exact hb.2.2.1

theorem blockInv_stop {cp : JournalPoint} {tailSeq : Nat} {b : RJTailBlock}
    (hb : blockInv cp tailSeq b) :
    blockInv (b.commitWaiters.getLastD cp) tailSeq { b with commitWaiters := [] } := by
  have hchain := blockInv_chain hb
  have hpts : blockPoints { b with commitWaiters := [] } = b.entryWaiters := by
    simp [blockPoints]
  have hmem : b.commitWaiters.getLastD cp = cp ∨ b.commitWaiters.getLastD cp ∈ b.commitWaiters :=
    List.mem_cons.mp (getLastD_mem_cons _ _)
  have hcross : ∀ a ∈ cp :: b.commitWaiters, ∀ p ∈ b.entryWaiters,
      before_journal_point a p := by
    have : List.Pairwise before_journal_point ((cp :: b.commitWaiters) ++ b.entryWaiters) := by
      simpa [blockPoints] using hchain
    exact (List.pairwise_append.mp this).2.2
  refine ⟨?_, ?_, ?_, ?_, ?_⟩
  · rw [hpts]
    intro p hp
    exact hb.1 p (by simp [blockPoints, hp])
  · rw [hpts]
    have := hb.2.1
    rw [blockPoints, List.pairwise_append] at this
    exact this.2.1
  · exact hb.2.2.1
  · rcases hmem with heq | hmem
    · rw [heq]
      exact hb.2.2.2.1
    · have hm2 : b.commitWaiters.getLastD cp ∈ blockPoints b := by
        rw [blockPoints]
        exact List.mem_append_left _ hmem
      have := hb.1 _ hm2
      exact Or.inr ⟨this.1, this.2⟩
  · rw [hpts]
    intro p hp
    exact hcross _ (getLastD_mem_cons _ _) p hp

theorem notifyLoop_spec (ro : Bool) (epb tailSeq : Nat) :
    ∀ (blocks : List RJTailBlock) (cp : JournalPoint) (free : Nat),
      notifyPre cp tailSeq blocks →
      notifyPre (notifyLoop ro epb blocks cp free).commitPoint tailSeq
          (notifyLoop ro epb blocks cp free).blocks ∧
      List.Pairwise before_journal_point
        (cp :: (notifyLoop ro epb blocks cp free).released) ∧
      (notifyLoop ro epb blocks cp free).commitPoint =
        ((notifyLoop ro epb blocks cp free).released).getLastD cp := by
  intro blocks
  induction blocks with
  | nil =>
    intro cp free h
    simp only [notifyLoop]
    exact ⟨h, List.pairwise_singleton _ _, rfl⟩
  | cons b rest ih =>
    intro cp free h
    obtain ⟨hpw, hbi, hcp⟩ := h
    have hb := hbi b (List.mem_cons_self _ _)
    have hrest : ∀ x ∈ rest, blockInv cp tailSeq x :=
      fun x hx => hbi x (List.mem_cons_of_mem _ hx)
    have hpwrest := (List.pairwise_cons.mp hpw).2
    have hseqs := (List.pairwise_cons.mp hpw).1
    have hchain := blockInv_chain hb
    have hchexp : List.Pairwise before_journal_point
        ((cp :: b.commitWaiters) ++ b.entryWaiters) := by
      simpa [blockPoints] using hchain
    have hchcw : List.Pairwise before_journal_point (cp :: b.commitWaiters) :=
      (List.pairwise_append.mp hchexp).1
    by_cases hcomm : b.committing = true
    · simp only [notifyLoop, hcomm, if_true]
      exact ⟨⟨hpw, hbi, hcp⟩, List.pairwise_singleton _ _, rfl⟩
    · by_cases hro : ro = true
      · -- read-only: release both queues, recycle, continue
        subst hro
        have hmem2 : (blockPoints b).getLastD cp = cp ∨
            (blockPoints b).getLastD cp ∈ blockPoints b :=
          List.mem_cons.mp (getLastD_mem_cons _ _)
        have hpre2 : notifyPre ((blockPoints b).getLastD cp) tailSeq rest :=
          ⟨hpwrest,
            fun x hx => blockInv_new_cp (hrest x hx) hb (hseqs x hx) hmem2,
            cp_new_lt_tail hb hcp hmem2⟩
        have hcp2eq : b.entryWaiters.getLastD (b.commitWaiters.getLastD cp) =
            (blockPoints b).getLastD cp := by
          rw [blockPoints, getLastD_append]
        obtain ⟨hpre', hchain', hlast'⟩ :=
          ih ((blockPoints b).getLastD cp) (free + 1) hpre2
        have hchain2 : List.Pairwise before_journal_point
            ((b.commitWaiters ++ b.entryWaiters).getLastD cp ::
              (notifyLoop true epb rest ((blockPoints b).getLastD cp) (free + 1)).released) := by
          rw [show (b.commitWaiters ++ b.entryWaiters).getLastD cp =
              (blockPoints b).getLastD cp from rfl]
          exact hchain'
        simp only [notifyLoop, hcomm, advanceCommitPoint_eq_getLastD, hcp2eq,
          Bool.false_eq_true, if_false, if_true, ite_true, ite_false]
        refine ⟨hpre', ?_, ?_⟩
        · exact chain_append hchexp hchain2
        · rw [hlast', getLastD_append, getLastD_append, hcp2eq]
      · rw [Bool.not_eq_true] at hro
        subst hro
        by_cases hdf : (0 < b.uncommittedEntryCount ∨ ¬b.entryCount = epb)
        · -- stop at a dirty or non-full block after releasing its commit waiters
          have hmem1 : b.commitWaiters.getLastD cp = cp ∨
              b.commitWaiters.getLastD cp ∈ blockPoints b := by
            rcases List.mem_cons.mp (getLastD_mem_cons b.commitWaiters cp) with heq | hm
            · exact Or.inl heq
            · exact Or.inr (by rw [blockPoints]; exact List.mem_append_left _ hm)
          simp only [notifyLoop, hcomm, hdf, if_false, if_true, ite_true, ite_false,
            advanceCommitPoint_eq_getLastD, Bool.false_eq_true]
          refine ⟨⟨?_, ?_, cp_new_lt_tail hb hcp hmem1⟩, hchcw, by trivial⟩
          · rw [List.pairwise_cons]
            refine ⟨fun x hx => ?_, hpwrest⟩
            have : seqLt b x := hseqs x hx
            exact this
          · intro x hx
            rcases List.mem_cons.mp hx with rfl | hx
            · exact blockInv_stop hb
            · exact blockInv_new_cp (hrest x hx) hb (hseqs x hx) hmem1
        · -- clean and full: release commit waiters, recycle, continue
          have hmem1 : b.commitWaiters.getLastD cp = cp ∨
              b.commitWaiters.getLastD cp ∈ blockPoints b := by
            rcases List.mem_cons.mp (getLastD_mem_cons b.commitWaiters cp) with heq | hm
            · exact Or.inl heq
            · exact Or.inr (by rw [blockPoints]; exact List.mem_append_left _ hm)
          have hpre2 : notifyPre (b.commitWaiters.getLastD cp) tailSeq rest :=
            ⟨hpwrest,
              fun x hx => blockInv_new_cp (hrest x hx) hb (hseqs x hx) hmem1,
              cp_new_lt_tail hb hcp hmem1⟩
          obtain ⟨hpre', hchain', hlast'⟩ :=
            ih (b.commitWaiters.getLastD cp) (free + 1) hpre2
          simp only [notifyLoop, hcomm, hdf, if_false, if_true, ite_true, ite_false,
            advanceCommitPoint_eq_getLastD, Bool.false_eq_true]
          refine ⟨hpre', ?_, ?_⟩
          · exact chain_append hchcw hchain'
          · rw [hlast', getLastD_append]

theorem blockInv_congr {cp : JournalPoint} {tailSeq : Nat} {b b' : RJTailBlock}
    (hpts : blockPoints b' = blockPoints b)
    (hseq : b'.sequenceNumber = b.sequenceNumber)
    (hcnt : b'.entryCount = b.entryCount)
    (h : blockInv cp tailSeq b) : blockInv cp tailSeq b' := by
  simp only [blockInv, cpBound, hpts, hseq, hcnt]
  exact h

theorem blockInv_tail_mono {cp : JournalPoint} {t t' : Nat} {b : RJTailBlock}
    (h : blockInv cp t b) (hle : t ≤ t') : blockInv cp t' b :=
  ⟨h.1, h.2.1, Nat.lt_of_lt_of_le h.2.2.1 hle, h.2.2.2.1, h.2.2.2.2⟩

theorem rjAdmit_pre (epb : Nat) (cp : JournalPoint) (tailSeq : Nat) :
    ∀ l : List RJTailBlock,
      List.Pairwise seqLt l → (∀ b ∈ l, blockInv cp tailSeq b) →
      List.Pairwise seqLt (rjAdmit epb l) ∧
      (∀ b ∈ rjAdmit epb l, blockInv cp tailSeq b) ∧
      (∀ x ∈ rjAdmit epb l, ∃ y ∈ l, x.sequenceNumber = y.sequenceNumber) := by
  intro l
  induction l with
  | nil =>
    intro _ _
    exact ⟨List.Pairwise.nil, by simp [rjAdmit], by simp [rjAdmit]⟩
  | cons b rest ih =>
    intro hpw hbi
    cases rest with
    | nil =>
      have hb := hbi b (List.mem_cons_self _ _)
      by_cases hfull : b.entryCount = epb
      · simp only [rjAdmit, hfull, if_true, ite_true]
        exact ⟨hpw, hbi, fun x hx => ⟨x, hx, rfl⟩⟩
      · simp only [rjAdmit, hfull, if_false, ite_false]
        set np : JournalPoint := ⟨b.sequenceNumber, b.entryCount⟩ with hnp
        set b' : RJTailBlock :=
          { b with
              entryWaiters := b.entryWaiters ++ [np]
              entryCount := b.entryCount + 1
              uncommittedEntryCount := b.uncommittedEntryCount + 1 } with hb'
        have hpts : blockPoints b' = blockPoints b ++ [np] := by
          simp [hb', blockPoints]
        have hbinv : blockInv cp tailSeq b' := by
          refine ⟨?_, ?_, hb.2.2.1, ?_, ?_⟩
          · intro p hp
            rw [hpts] at hp
            rcases List.mem_append.mp hp with hp | hp
            · have := hb.1 p hp
              exact ⟨this.1, Nat.lt_succ_of_lt this.2⟩
            · rw [List.mem_singleton.mp hp]
              exact ⟨rfl, Nat.lt_succ_self _⟩
          · rw [hpts, List.pairwise_append]
            refine ⟨hb.2.1, List.pairwise_singleton _ _, ?_⟩
            intro p hp q hq
            rw [List.mem_singleton.mp hq]
            exact (hb.1 p hp).2
          · rcases hb.2.2.2.1 with h | h
            · exact Or.inl h
            · exact Or.inr ⟨h.1, Nat.lt_succ_of_lt h.2⟩
          · intro p hp
            rw [hpts] at hp
            rcases List.mem_append.mp hp with hp | hp
            · exact hb.2.2.2.2 p hp
            · rw [List.mem_singleton.mp hp]
              rcases hb.2.2.2.1 with h | h
              · exact Or.inl h
              · exact Or.inr ⟨h.1, h.2⟩
        refine ⟨List.pairwise_singleton _ _, ?_, ?_⟩
        · intro x hx
          rw [List.mem_singleton.mp hx]
          exact hbinv
        · intro x hx
          rw [List.mem_singleton.mp hx]
          exact ⟨b, List.mem_cons_self _ _, rfl⟩
    | cons c rest2 =>
      have hpwr := (List.pairwise_cons.mp hpw).2
      have hhead := (List.pairwise_cons.mp hpw).1
      obtain ⟨ih1, ih2, ih3⟩ := ih hpwr
        (fun x hx => hbi x (List.mem_cons_of_mem _ hx))
      simp only [rjAdmit]
      refine ⟨?_, ?_, ?_⟩
      · rw [List.pairwise_cons]
        refine ⟨?_, ih1⟩
        intro x hx
        obtain ⟨y, hy, hxy⟩ := ih3 x hx
        have : seqLt b y := hhead y hy
        simp only [seqLt] at *
        rw [hxy]
        exact this
      · intro x hx
        rcases List.mem_cons.mp hx with rfl | hx
        · exact hbi x (List.mem_cons_self _ _)
        · exact ih2 x hx
      · intro x hx
        rcases List.mem_cons.mp hx with rfl | hx
        · exact ⟨x, List.mem_cons_self _ _, rfl⟩
        · obtain ⟨y, hy, hxy⟩ := ih3 x hx
          exact ⟨y, List.mem_cons_of_mem _ hy, hxy⟩

theorem rjAdmitEvent_inv (epb : Nat) (j : RJ1State) (h : rjInv j) :
    rjInv (rjAdmitEvent epb j) := by
  obtain ⟨hpw, hbi, hcp⟩ := h
  obtain ⟨h1, h2, _⟩ := rjAdmit_pre epb j.commitPoint j.tail j.activeBlocks hpw hbi
  exact ⟨h1, h2, hcp⟩

theorem rjAdvanceTail_inv (j : RJ1State) (h : rjInv j) :
    rjInv (rjAdvanceTail j) := by
  obtain ⟨hpw, hbi, hcp⟩ := h
  unfold rjAdvanceTail
  cases hfree : j.freeBlockCount with
  | zero => exact ⟨hpw, hbi, hcp⟩
  | succ n =>
    refine ⟨?_, ?_, Nat.lt_succ_of_lt hcp⟩
    · rw [List.pairwise_append]
      refine ⟨hpw, List.pairwise_singleton _ _, ?_⟩
      intro x hx y hy
      rw [List.mem_singleton.mp hy]
      exact (hbi x hx).2.2.1
    · intro x hx
      rcases List.mem_append.mp hx with hx | hx
      · exact blockInv_tail_mono (hbi x hx) (Nat.le_succ _)
      · rw [List.mem_singleton.mp hx]
        refine ⟨by simp [freshTailBlock, blockPoints], by simp [freshTailBlock, blockPoints],
          Nat.lt_succ_self _, Or.inl hcp, by simp [freshTailBlock, blockPoints]⟩

theorem modifyIdx_mem {α : Type u} (f : α → α) :
    ∀ (i : Nat) (l : List α) (x : α), x ∈ modifyIdx f i l → x ∈ l ∨ ∃ y ∈ l, x = f y := by
  intro i l
  induction l generalizing i with
  | nil => intro x hx; simp [modifyIdx] at hx
  | cons a l ih =>
    intro x hx
    cases i with
    | zero =>
      rcases List.mem_cons.mp hx with rfl | hx
      · exact Or.inr ⟨a, List.mem_cons_self _ _, rfl⟩
      · exact Or.inl (List.mem_cons_of_mem _ hx)
    | succ i =>
      rcases List.mem_cons.mp hx with rfl | hx
      · exact Or.inl (List.mem_cons_self _ _)
      · rcases ih i x hx with h | ⟨y, hy, hxy⟩
        · exact Or.inl (List.mem_cons_of_mem _ h)
        · exact Or.inr ⟨y, List.mem_cons_of_mem _ hy, hxy⟩

theorem modifyIdx_map {α : Type u} {β : Type u} (f : α → α) (g : α → β)
    (hf : ∀ a, g (f a) = g a) :
    ∀ (i : Nat) (l : List α), (modifyIdx f i l).map g = l.map g := by
  intro i l
  induction l generalizing i with
  | nil => cases i <;> rfl
  | cons a l ih =>
    cases i with
    | zero => simp [modifyIdx, hf]
    | succ i => simp [modifyIdx, ih i]

theorem rjInv_modifyIdx (f : RJTailBlock → RJTailBlock)
    (hpts : ∀ b, blockPoints (f b) = blockPoints b)
    (hseq : ∀ b, (f b).sequenceNumber = b.sequenceNumber)
    (hcnt : ∀ b, (f b).entryCount = b.entryCount)
    (i : Nat) {cp : JournalPoint} {tailSeq : Nat} {l : List RJTailBlock}
    (hpw : List.Pairwise seqLt l) (hbi : ∀ b ∈ l, blockInv cp tailSeq b) :
    List.Pairwise seqLt (modifyIdx f i l) ∧
    (∀ b ∈ modifyIdx f i l, blockInv cp tailSeq b) := by
  constructor
  · have hmap := modifyIdx_map f (fun b => b.sequenceNumber) hseq i l
    have h1 : ((modifyIdx f i l).map (fun b => b.sequenceNumber)).Pairwise (· < ·) := by
      rw [hmap, List.pairwise_map]
      exact hpw
    rw [List.pairwise_map] at h1
    exact h1
  · intro b hb
    rcases modifyIdx_mem f i l b hb with h | ⟨y, hy, rfl⟩
    · exact hbi b h
    · exact blockInv_congr (hpts y) (hseq y) (hcnt y) (hbi y hy)

theorem commitBlock_points (b : RJTailBlock) : blockPoints (commitBlock b) = blockPoints b := by
  unfold commitBlock
  split
  · rfl
  · simp [blockPoints]

theorem commitBlock_seq (b : RJTailBlock) :
    (commitBlock b).sequenceNumber = b.sequenceNumber := by
  unfold commitBlock
  split <;> rfl

theorem commitBlock_cnt (b : RJTailBlock) : (commitBlock b).entryCount = b.entryCount := by
  unfold commitBlock
  split <;> rfl

theorem completeBlock_points (b : RJTailBlock) :
    blockPoints (completeBlock b) = blockPoints b := rfl

theorem notify_spec (epb : Nat) (j : RJ1State) (h : rjInv j) :
    rjInv (notify_commit_waiters epb j).1 ∧
    List.Pairwise before_journal_point
      (j.commitPoint :: (notify_commit_waiters epb j).2) ∧
    (notify_commit_waiters epb j).1.commitPoint =
      (notify_commit_waiters epb j).2.getLastD j.commitPoint := by
  have hs := notifyLoop_spec j.readOnly epb j.tail j.activeBlocks j.commitPoint
    j.freeBlockCount h
  exact hs

theorem rjAdvanceTail_cp (j : RJ1State) :
    (rjAdvanceTail j).commitPoint = j.commitPoint := by
  unfold rjAdvanceTail
  cases j.freeBlockCount <;> rfl

theorem rjStep_spec (epb : Nat) (j : RJ1State) (e : RJEvent) (h : rjInv j) :
    rjInv (rjStep epb j e).1 ∧
    List.Pairwise before_journal_point (j.commitPoint :: (rjStep epb j e).2) ∧
    (rjStep epb j e).1.commitPoint = (rjStep epb j e).2.getLastD j.commitPoint := by
  cases e with
  | admitEntry =>
    exact ⟨rjAdmitEvent_inv epb j h, List.pairwise_singleton _ _, rfl⟩
  | advanceTail =>
    exact ⟨rjAdvanceTail_inv j h, List.pairwise_singleton _ _, rjAdvanceTail_cp j⟩
  | startCommit i =>
    obtain ⟨hpw, hbi, hcp⟩ := h
    obtain ⟨h1, h2⟩ := rjInv_modifyIdx commitBlock commitBlock_points commitBlock_seq
      commitBlock_cnt i hpw hbi
    exact ⟨⟨h1, h2, hcp⟩, List.pairwise_singleton _ _, rfl⟩
  | completeWrite i =>
    simp only [rjStep, rjCompleteWrite]
    cases hgb : j.activeBlocks[i]? with
    | none => exact ⟨h, List.pairwise_singleton _ _, rfl⟩
    | some b =>
      by_cases hc : b.committing = true
      · simp only [hc, if_true, ite_true]
        obtain ⟨hpw, hbi, hcp⟩ := h
        obtain ⟨h1, h2⟩ := rjInv_modifyIdx completeBlock completeBlock_points
          (fun _ => rfl) (fun _ => rfl) i hpw hbi
        exact notify_spec epb _ ⟨h1, h2, hcp⟩
      · simp only [hc, if_false, ite_false]
        exact ⟨h, List.pairwise_singleton _ _, rfl⟩
  | enterReadOnly =>
    exact notify_spec epb _ h

theorem rjRun_spec (epb : Nat) :
    ∀ (es : List RJEvent) (j : RJ1State), rjInv j →
      rjInv (rjRun epb j es).1 ∧
      List.Pairwise before_journal_point (j.commitPoint :: (rjRun epb j es).2) ∧
      (rjRun epb j es).1.commitPoint = (rjRun epb j es).2.getLastD j.commitPoint := by
  intro es
  induction es with
  | nil =>
    intro j h
    exact ⟨h, List.pairwise_singleton _ _, rfl⟩
  | cons e es ih =>
    intro j h
    obtain ⟨h1, c1, l1⟩ := rjStep_spec epb j e h
    obtain ⟨h2, c2, l2⟩ := ih _ h1
    simp only [rjRun]
    refine ⟨h2, ?_, ?_⟩
    · refine chain_append c1 ?_
      rw [← l1]
      exact c2
    · rw [l2, l1, getLastD_append]

theorem rjInit_inv (tailBufferSize : Nat) : rjInv (rjInit tailBufferSize) := by
  refine ⟨List.Pairwise.nil, ?_, ?_⟩
  · intro b hb
    simp [rjInit] at hb
  · simp [rjInit]

/-- C1: For every sequence of entry admissions and journal block commit
completions (and tail advances, commit launches and read-only entry),
DataVIOs are released from commit acknowledgement in strictly increasing
`(sequence_number, entry_index)` order: `notify_commit_waiters` walks the
active ring from the front and stops at the first committing block, and each
DataVIO it releases through `continue_committed_waiter` has a recovery
journal point strictly greater than the journal's current `commit_point`
(the previous element of the chain below), which is then advanced to that
DataVIO's point (the final `commit_point` is the last released point). -/
theorem C1_commit_release_strictly_ordered (tailBufferSize epb : Nat)
    (events : List RJEvent) :
    List.Pairwise before_journal_point
      ((rjInit tailBufferSize).commitPoint ::
        (rjRun epb (rjInit tailBufferSize) events).2) ∧
    (rjRun epb (rjInit tailBufferSize) events).1.commitPoint =
      ((rjRun epb (rjInit tailBufferSize) events).2).getLastD
        (rjInit tailBufferSize).commitPoint := by
  obtain ⟨_, hchain, hlast⟩ :=
    rjRun_spec epb events (rjInit tailBufferSize) (rjInit_inv tailBufferSize)
  exact ⟨hchain, hlast⟩

theorem reapLoop_ge (locked : Nat → Bool) (size lwa : Nat) :
    ∀ (gas reapHead headBlockNumber : Nat),
      reapHead ≤ (reapLoop locked size lwa gas reapHead headBlockNumber).1 := by
  intro gas
  induction gas with
  | zero => intro rh hn; exact Nat.le_refl _
  | succ g ih =>
    intro rh hn
    unfold reapLoop
    split
    · exact Nat.le_trans (Nat.le_succ _) (ih (rh + 1) _)
    · exact Nat.le_refl _

theorem reapLoop_le (locked : Nat → Bool) (size lwa : Nat) :
    ∀ (gas reapHead headBlockNumber : Nat), reapHead ≤ lwa →
      (reapLoop locked size lwa gas reapHead headBlockNumber).1 ≤ lwa := by
  intro gas
  induction gas with
  | zero => intro rh hn h; exact h
  | succ g ih =>
    intro rh hn h
    unfold reapLoop
    split
    · next hguard => exact ih (rh + 1) _ hguard.1
    · exact h

theorem reapLoop_move (locked : Nat → Bool) (size lwa : Nat) :
    ∀ (gas reapHead headBlockNumber : Nat),
      (reapLoop locked size lwa gas reapHead headBlockNumber).1 ≠ reapHead →
      reapHead < lwa ∧ locked headBlockNumber = false := by
  intro gas
  induction gas with
  | zero => intro rh hn h; exact absurd rfl h
  | succ g ih =>
    intro rh hn h
    unfold reapLoop at h
    by_cases hguard : rh < lwa ∧ locked hn = false
    · exact hguard
    · rw [if_neg hguard] at h
      exact absurd rfl h

theorem finish_reaping_inv (j : RecoveryJournal) (h : journal_head_invariant j) :
    journal_head_invariant (finish_reaping j) := by
  obtain ⟨h1, h2, h3, h4, h5⟩ := h
  exact ⟨Nat.le_refl _, h2, Nat.le_refl _, h4, h5⟩

/-- C2: the recovery journal's head chain
`block_map_head ≤ block_map_reap_head ≤ last_write_acknowledged ≤ tail` (and
the slab journal analogue) is preserved by every operation touching these
counters: `reap_recovery_journal` advances a reap head only while it is
strictly below `last_write_acknowledged` and the head block is unlocked;
`finish_reaping` sets each head to its reap head; and `complete_write` only
ever advances `last_write_acknowledged` (never regresses it). -/
theorem C2_journal_head_chain (j : RecoveryJournal)
    (lockedLogical lockedPhysical : Nat → Bool) (policy : WritePolicy)
    (sequenceNumber : Nat) :
    (journal_head_invariant j →
      journal_head_invariant (reap_recovery_journal j lockedLogical lockedPhysical policy)) ∧
    ((reap_recovery_journal j lockedLogical lockedPhysical policy).blockMapReapHead ≠
        j.blockMapReapHead →
      j.blockMapReapHead < j.lastWriteAcknowledged ∧
      lockedLogical j.blockMapHeadBlockNumber = false) ∧
    ((reap_recovery_journal j lockedLogical lockedPhysical policy).slabJournalReapHead ≠
        j.slabJournalReapHead →
      j.slabJournalReapHead < j.lastWriteAcknowledged ∧
      lockedPhysical j.slabJournalHeadBlockNumber = false) ∧
    (journal_head_invariant j → journal_head_invariant (finish_reaping j)) ∧
    (finish_reaping j).blockMapHead = j.blockMapReapHead ∧
    (finish_reaping j).slabJournalHead = j.slabJournalReapHead ∧
    j.lastWriteAcknowledged ≤ (complete_write_ack j sequenceNumber).lastWriteAcknowledged ∧
    (journal_head_invariant j → sequenceNumber ≤ j.tail →
      journal_head_invariant (complete_write_ack j sequenceNumber)) := by
  refine ⟨?_, ?_, ?_, finish_reaping_inv j, rfl, rfl, ?_, ?_⟩
  · intro hinv
    by_cases hr : j.reaping = true
    · unfold reap_recovery_journal
      rw [if_pos hr]
      exact hinv
    · obtain ⟨h1, h2, h3, h4, h5⟩ := hinv
      have gbm := reapLoop_ge lockedLogical j.size j.lastWriteAcknowledged
        (j.lastWriteAcknowledged - j.blockMapReapHead) j.blockMapReapHead
        j.blockMapHeadBlockNumber
      have lbm := reapLoop_le lockedLogical j.size j.lastWriteAcknowledged
        (j.lastWriteAcknowledged - j.blockMapReapHead) j.blockMapReapHead
        j.blockMapHeadBlockNumber h2
      have gsj := reapLoop_ge lockedPhysical j.size j.lastWriteAcknowledged
        (j.lastWriteAcknowledged - j.slabJournalReapHead) j.slabJournalReapHead
        j.slabJournalHeadBlockNumber
      have lsj := reapLoop_le lockedPhysical j.size j.lastWriteAcknowledged
        (j.lastWriteAcknowledged - j.slabJournalReapHead) j.slabJournalReapHead
        j.slabJournalHeadBlockNumber h4
      unfold reap_recovery_journal
      rw [if_neg hr]
      dsimp only
      split_ifs with hno hpol
      · exact ⟨Nat.le_trans h1 gbm, lbm, Nat.le_trans h3 gsj, lsj, h5⟩
      · exact ⟨Nat.le_trans h1 gbm, lbm, Nat.le_trans h3 gsj, lsj, h5⟩
      · exact finish_reaping_inv _ ⟨Nat.le_trans h1 gbm, lbm, Nat.le_trans h3 gsj, lsj, h5⟩
  · intro hne
    by_cases hr : j.reaping = true
    · unfold reap_recovery_journal at hne
      rw [if_pos hr] at hne
      exact absurd rfl hne
    · unfold reap_recovery_journal at hne
      rw [if_neg hr] at hne
      dsimp only at hne
      split_ifs at hne
      all_goals
        exact reapLoop_move lockedLogical j.size j.lastWriteAcknowledged _ _ _ hne
  · intro hne
    by_cases hr : j.reaping = true
    · unfold reap_recovery_journal at hne
      rw [if_pos hr] at hne
      exact absurd rfl hne
    · unfold reap_recovery_journal at hne
      rw [if_neg hr] at hne
      dsimp only at hne
      split_ifs at hne
      all_goals
        exact reapLoop_move lockedPhysical j.size j.lastWriteAcknowledged _ _ _ hne
  · unfold complete_write_ack
    split_ifs with h
    · exact Nat.le_of_lt h
    · exact Nat.le_refl _
  · intro hinv hseq
    obtain ⟨h1, h2, h3, h4, h5⟩ := hinv
    unfold complete_write_ack
    split_ifs with h
    · exact ⟨h1, Nat.le_trans h2 (Nat.le_of_lt h), h3,
        Nat.le_trans h4 (Nat.le_of_lt h), hseq⟩
    · exact ⟨h1, h2, h3, h4, h5⟩

theorem C2_journal_head_chain_witness :
    journal_head_invariant
      (reap_recovery_journal sampleJournal (fun _ => false) (fun _ => false)
        WritePolicy.sync) ∧
    journal_head_invariant (finish_reaping sampleJournal) ∧
    journal_head_invariant (complete_write_ack sampleJournal 7) := by
  obtain ⟨p1, _, _, p4, _, _, _, p8⟩ :=
    C2_journal_head_chain sampleJournal (fun _ => false) (fun _ => false)
      WritePolicy.sync 7
  exact ⟨p1 (by decide), p4 (by decide), p8 (by decide) (by decide)⟩

theorem usub64_eq_sub {a b : Nat} (hb : b ≤ a) (ha : a < 2 ^ 64) :
    usub64 a b = a - b := by
  unfold usub64
  omega

/-- C3: an increment entry is admitted iff
`available_space - pending_decrement_count > 1` and a decrement entry is
admitted iff `available_space > 0`; when
`available_space = pending_decrement_count + 1` an increment is refused while
a decrement is accepted; and a refused decrement (`available_space = 0`) puts
the journal into read-only mode with `VDO_RECOVERY_JOURNAL_FULL`. -/
theorem C3_entry_admission (j : RecoveryJournal)
    (ha : j.availableSpace < 2 ^ 64)
    (hp : j.pendingDecrementCount ≤ j.availableSpace) :
    (check_for_entry_space j true = true ↔
      1 < j.availableSpace - j.pendingDecrementCount) ∧
    (check_for_entry_space j false = true ↔ 0 < j.availableSpace) ∧
    (j.availableSpace = j.pendingDecrementCount + 1 →
      check_for_entry_space j true = false ∧ check_for_entry_space j false = true) ∧
    (j.availableSpace = 0 →
      (prepare_to_assign_entry j false).1 = false ∧
      (prepare_to_assign_entry j false).2 =
        enter_journal_read_only_mode j VDO_RECOVERY_JOURNAL_FULL) := by
  have hu : usub64 j.availableSpace j.pendingDecrementCount =
      j.availableSpace - j.pendingDecrementCount := usub64_eq_sub hp ha
  refine ⟨?_, ?_, ?_, ?_⟩
  · simp [check_for_entry_space, hu]
  · simp [check_for_entry_space]
  · intro he
    have h1 : usub64 (j.pendingDecrementCount + 1) j.pendingDecrementCount = 1 := by
      unfold usub64
      omega
    constructor
    · simp [check_for_entry_space, he, h1]
    · simp [check_for_entry_space, he]
  · intro h0
    have hc : check_for_entry_space j false = false := by
      simp [check_for_entry_space, h0]
    constructor
    · simp [prepare_to_assign_entry, hc]
    · simp [prepare_to_assign_entry, hc]

theorem C3_entry_admission_witness :
    (check_for_entry_space sampleJournal true = true ↔
      1 < sampleJournal.availableSpace - sampleJournal.pendingDecrementCount) ∧
    (check_for_entry_space sampleJournal false = true ↔
      0 < sampleJournal.availableSpace) := by
  have h := C3_entry_admission sampleJournal (by decide) (by decide)
  exact ⟨h.1, h.2.1⟩

/-- C5: sequence numbers above `2 ^ 48` are fatal: `set_journal_tail` with a
tail at or past `2 ^ 48` stores the tail and puts the journal into read-only
mode with `VDO_JOURNAL_OVERFLOW`; for every tail below `2 ^ 48` it stores the
new tail and triggers no error; and `advance_tail` advances the tail strictly
monotonically. -/
theorem C5_tail_overflow (j : RecoveryJournal) (tail : Nat) :
    (tail < 2 ^ 48 → set_journal_tail j tail = { j with tail := tail }) ∧
    (2 ^ 48 ≤ tail →
      (set_journal_tail j tail).tail = tail ∧
      (j.readOnlyError = none →
        (set_journal_tail j tail).readOnlyError = some VDO_JOURNAL_OVERFLOW)) ∧
    (0 < j.freeTailBlockCount → j.tail < (advance_tail j).2.tail) := by
  refine ⟨?_, ?_, ?_⟩
  · intro h
    unfold set_journal_tail
    rw [if_neg (by omega)]
  · intro h
    unfold set_journal_tail
    rw [if_pos h]
    refine ⟨rfl, ?_⟩
    intro hro
    simp [enter_journal_read_only_mode, hro]
  · intro hf
    cases hfree : j.freeTailBlockCount with
    | zero => omega
    | succ n =>
      simp [advance_tail, hfree, set_journal_tail]

theorem C5_tail_overflow_witness :
    set_journal_tail sampleJournal 9 = { sampleJournal with tail := 9 } ∧
    (set_journal_tail sampleJournal (2 ^ 48)).tail = 2 ^ 48 ∧
    (set_journal_tail sampleJournal (2 ^ 48)).readOnlyError =
      some VDO_JOURNAL_OVERFLOW ∧
    sampleJournal.tail < (advance_tail sampleJournal).2.tail := by
  refine ⟨(C5_tail_overflow sampleJournal 9).1 (by decide), ?_, ?_, ?_⟩
  · exact ((C5_tail_overflow sampleJournal (2 ^ 48)).2.1 (by decide)).1
  · exact ((C5_tail_overflow sampleJournal (2 ^ 48)).2.1 (by decide)).2 (by decide)
  · exact (C5_tail_overflow sampleJournal 0).2.2 (by decide)

/-- C6: `encode_recovery_journal` writes the version-7.0 header followed by
`journal_start`, `logical_blocks_used` and `block_map_data_blocks` as
64-bit little-endian values, where `journal_start` is the tail when the
journal is saved and `min(block_map_head, slab_journal_head)` otherwise, and
the encoded payload size equals the header's declared size. -/
theorem C6_encode_recovery_journal (j : RecoveryJournal) :
    encode_recovery_journal j =
      encode_header RECOVERY_JOURNAL_HEADER_7_0 ++
        u64le (if is_saved j.adminState then j.tail
          else min j.blockMapHead j.slabJournalHead) ++
        u64le j.logicalBlocksUsed ++ u64le j.blockMapDataBlocks ∧
    (encode_recovery_journal j).length =
      (encode_header RECOVERY_JOURNAL_HEADER_7_0).length +
        RECOVERY_JOURNAL_HEADER_7_0.size := by
  constructor
  · rfl
  · simp [encode_recovery_journal, encode_header, u64le, u32le,
      RECOVERY_JOURNAL_HEADER_7_0, RECOVERY_JOURNAL_COMPONENT]

/-- C10: calling `acquire_recovery_journal_block_reference`,
`release_recovery_journal_block_reference`, or
`release_per_entry_lock_from_other_zone` with a zero sequence number is an
immediate no-op: no lock-counter reference is acquired or released and the
journal state is unchanged. -/
theorem C10_zero_sequence_number_noop (j : RecoveryJournal) (zoneType : ZoneType)
    (zoneId : Nat) :
    acquire_recovery_journal_block_reference j 0 zoneType zoneId = j ∧
    release_recovery_journal_block_reference j 0 zoneType zoneId = j ∧
    release_per_entry_lock_from_other_zone j 0 = j :=
  ⟨rfl, rfl, rfl⟩

theorem readU32LE_u32le (n : Nat) (h : n < 2 ^ 32) (rest : List Nat) :
    readU32LE (u32le n ++ rest) = some (n, rest) := by
  simp only [u32le, List.cons_append, List.nil_append, readU32LE,
    Option.some.injEq, Prod.mk.injEq]
  exact ⟨by omega, trivial⟩

theorem readU64LE_u64le (n : Nat) (h : n < 2 ^ 64) (rest : List Nat) :
    readU64LE (u64le n ++ rest) = some (n, rest) := by
  simp only [u64le, List.cons_append, List.nil_append, readU64LE,
    Option.some.injEq, Prod.mk.injEq]
  exact ⟨by omega, trivial⟩

theorem decode_header_encode (h : VDOHeader) (rest : List Nat)
    (h1 : h.id < 2 ^ 32) (h2 : h.majorVersion < 2 ^ 32)
    (h3 : h.minorVersion < 2 ^ 32) (h4 : h.size < 2 ^ 64) :
    decode_header (encode_header h ++ rest) = some (h, rest) := by
  unfold decode_header encode_header
  rw [List.append_assoc, List.append_assoc, List.append_assoc,
    readU32LE_u32le _ h1]
  dsimp only
  rw [readU32LE_u32le _ h2]
  dsimp only
  rw [readU32LE_u32le _ h3]
  dsimp only
  rw [readU64LE_u64le _ h4]

theorem validate_header_reject (h' : VDOHeader)
    (hne : h' ≠ RECOVERY_JOURNAL_HEADER_7_0) :
    ∃ e, validate_header RECOVERY_JOURNAL_HEADER_7_0 h' true = Except.error e := by
  obtain ⟨i, ma, mi, sz⟩ := h'
  unfold validate_header
  by_cases hid : RECOVERY_JOURNAL_HEADER_7_0.id = i
  · by_cases hma : RECOVERY_JOURNAL_HEADER_7_0.majorVersion = ma
    · by_cases hmi : RECOVERY_JOURNAL_HEADER_7_0.minorVersion = mi
      · by_cases hsz : RECOVERY_JOURNAL_HEADER_7_0.size = sz
        · exfalso
          apply hne
          rw [← hid, ← hma, ← hmi, ← hsz]
        · exact ⟨VDO_INCORRECT_COMPONENT, by simp [hid, hma, hmi, hsz]⟩
      · exact ⟨VDO_UNSUPPORTED_VERSION, by simp [hid, hma, hmi]⟩
    · exact ⟨VDO_UNSUPPORTED_VERSION, by simp [hid, hma]⟩
  · exact ⟨VDO_INCORRECT_COMPONENT, by simp [hid]⟩

/-- C7: for every valid version-7.0 recovery-journal record, encoding the
journal state produced by decoding it yields the original record, and
`decode_recovery_journal` rejects any encoding whose header id, version, or
size does not match `RECOVERY_JOURNAL_HEADER_7_0`. -/
theorem C7_decode_encode_roundtrip (j : RecoveryJournal) (a b c : Nat)
    (h' : VDOHeader)
    (ha : a < 2 ^ 64) (hb : b < 2 ^ 64) (hc : c < 2 ^ 64)
    (h1 : h'.id < 2 ^ 32) (h2 : h'.majorVersion < 2 ^ 32)
    (h3 : h'.minorVersion < 2 ^ 32) (h4 : h'.size < 2 ^ 64) :
    (∃ j', decode_recovery_journal j
        (encode_header RECOVERY_JOURNAL_HEADER_7_0 ++ u64le a ++ u64le b ++ u64le c) =
        Except.ok j' ∧
      encode_recovery_journal j' =
        encode_header RECOVERY_JOURNAL_HEADER_7_0 ++ u64le a ++ u64le b ++ u64le c) ∧
    (h' ≠ RECOVERY_JOURNAL_HEADER_7_0 →
      ∀ payload, ∃ e,
        decode_recovery_journal j (encode_header h' ++ payload) = Except.error e) := by
  constructor
  · have hd : decode_header
        (encode_header RECOVERY_JOURNAL_HEADER_7_0 ++ u64le a ++ u64le b ++ u64le c) =
        some (RECOVERY_JOURNAL_HEADER_7_0, u64le a ++ (u64le b ++ u64le c)) := by
      rw [List.append_assoc, List.append_assoc]
      exact decode_header_encode _ _ (by decide) (by decide) (by decide) (by decide)
    have hs : decodeRecoveryJournalState_7_0 (u64le a ++ (u64le b ++ u64le c)) =
        some (⟨a, b, c⟩, []) := by
      have hcnil : readU64LE (u64le c) = some (c, []) := by
        have := readU64LE_u64le c hc []
        rwa [List.append_nil] at this
      unfold decodeRecoveryJournalState_7_0
      rw [readU64LE_u64le _ ha]
      dsimp only
      rw [readU64LE_u64le _ hb]
      dsimp only
      rw [hcnil]
    refine ⟨{ init_journal_state
        { set_journal_tail j a with
            logicalBlocksUsed := b
            blockMapDataBlocks := c } with
        adminState := AdminState.suspended }, ?_, ?_⟩
    · unfold decode_recovery_journal
      rw [hd]
      dsimp only
      rw [show validate_header RECOVERY_JOURNAL_HEADER_7_0 RECOVERY_JOURNAL_HEADER_7_0 true =
        Except.ok () from rfl]
      dsimp only
      rw [hs]
    · have htail : (set_journal_tail j a).tail = a := rfl
      simp [encode_recovery_journal, init_journal_state, is_saved,
        get_recovery_journal_head, htail, List.append_assoc]
  · intro hne payload
    obtain ⟨e, he⟩ := validate_header_reject h' hne
    refine ⟨e, ?_⟩
    unfold decode_recovery_journal
    rw [decode_header_encode h' payload h1 h2 h3 h4]
    dsimp only
    rw [he]

theorem C7_decode_encode_roundtrip_witness :
    (∃ j', decode_recovery_journal sampleJournal
        (encode_header RECOVERY_JOURNAL_HEADER_7_0 ++ u64le 5 ++ u64le 6 ++ u64le 7) =
        Except.ok j' ∧
      encode_recovery_journal j' =
        encode_header RECOVERY_JOURNAL_HEADER_7_0 ++ u64le 5 ++ u64le 6 ++ u64le 7) ∧
    (∃ e, decode_recovery_journal sampleJournal
        (encode_header ⟨3, 7, 0, 24⟩ ++ []) = Except.error e) := by
  have h := C7_decode_encode_roundtrip sampleJournal 5 6 7 ⟨3, 7, 0, 24⟩
    (by decide) (by decide) (by decide) (by decide) (by decide) (by decide) (by decide)
  exact ⟨h.1, h.2 (by decide) []⟩

@[simp] theorem upd_same {α : Type u} (f : Nat → α) (i : Nat) (x : α) :
    upd f i x i = x := by
  simp [upd]

@[simp] theorem upd_ne {α : Type u} (f : Nat → α) (i : Nat) (x : α) {k : Nat}
    (h : ¬k = i) : upd f i x k = f k := by
  simp [upd, h]

theorem setHashLock_lock_misc (s : HashZoneState) (v : Nat) (nl : Option Nat) (k : Nat) :
    ((setHashLock s v nl).lockTable k).hashName = (s.lockTable k).hashName ∧
    ((setHashLock s v nl).lockTable k).state = (s.lockTable k).state ∧
    ((setHashLock s v nl).lockTable k).agent = (s.lockTable k).agent ∧
    ((setHashLock s v nl).lockTable k).waiters = (s.lockTable k).waiters ∧
    ((setHashLock s v nl).lockTable k).updateAdvice = (s.lockTable k).updateAdvice ∧
    ((setHashLock s v nl).lockTable k).hasDuplicateLock = (s.lockTable k).hasDuplicateLock := by
  unfold setHashLock setVioLock
  cases hold : (s.vioTable v).hashLock with
  | none =>
    cases nl with
    | none => exact ⟨rfl, rfl, rfl, rfl, rfl, rfl⟩
    | some n =>
      dsimp only
      by_cases hk : k = n <;> simp [upd, hk, ringAdd]
  | some ol =>
    cases nl with
    | none =>
      dsimp only
      by_cases hk : k = ol <;> simp [upd, hk, ringRemove]
    | some n =>
      dsimp only
      by_cases hk : k = n <;> by_cases hk2 : k = ol <;>
        simp only [upd, hk, hk2, if_true, if_false, ite_true, ite_false] <;>
        (try split_ifs) <;> (try subst_vars) <;> simp [ringAdd, ringRemove]

theorem setHashLock_maps (s : HashZoneState) (v : Nat) (nl : Option Nat) :
    (setHashLock s v nl).lockMap = s.lockMap ∧
    (setHashLock s v nl).lockPool = s.lockPool ∧
    (setHashLock s v nl).collisionCount = s.collisionCount := by
  unfold setHashLock setVioLock
  cases hold : (s.vioTable v).hashLock <;> cases nl <;>
    exact ⟨rfl, rfl, rfl⟩

theorem setHashLock_vio_frame (s : HashZoneState) (v : Nat) (nl : Option Nat) (u : Nat) :
    ((setHashLock s v nl).vioTable u).hasAllocation = (s.vioTable u).hasAllocation ∧
    ((setHashLock s v nl).vioTable u).chunkName = (s.vioTable u).chunkName ∧
    ((setHashLock s v nl).vioTable u).dataBlock = (s.vioTable u).dataBlock ∧
    ((setHashLock s v nl).vioTable u).isDuplicate = (s.vioTable u).isDuplicate := by
  unfold setHashLock setVioLock
  cases hold : (s.vioTable v).hashLock <;> cases nl <;> dsimp only <;>
    by_cases hu : u = v <;> simp [upd, hu]

theorem setHashLock_vio_join (s : HashZoneState) (v n : Nat) :
    ((setHashLock s v (some n)).vioTable v).hashLock = some n := by
  unfold setHashLock setVioLock
  cases hold : (s.vioTable v).hashLock <;> simp [upd]

theorem setHashLock_vio_other (s : HashZoneState) (v : Nat) (nl : Option Nat)
    {u : Nat} (hu : ¬u = v) :
    (setHashLock s v nl).vioTable u = s.vioTable u := by
  unfold setHashLock setVioLock
  cases hold : (s.vioTable v).hashLock <;> cases nl <;> simp [upd, hu]

theorem refTable_remove {T : Nat → HashLock}
    (hT : ∀ k, (T k).referenceCount = (T k).duplicateRing.length)
    {ol v : Nat} (hv : v ∈ (T ol).duplicateRing) (k : Nat) :
    ((upd T ol (ringRemove (T ol) v)) k).referenceCount =
      ((upd T ol (ringRemove (T ol) v)) k).duplicateRing.length := by
  by_cases hk : k = ol
  · subst hk
    simp [upd, ringRemove, hT k, List.length_erase_of_mem hv]
  · simp [upd, hk]
    exact hT k

theorem refTable_add {T : Nat → HashLock}
    (hT : ∀ k, (T k).referenceCount = (T k).duplicateRing.length)
    (n w : Nat) (k : Nat) :
    ((upd T n (ringAdd (T n) w)) k).referenceCount =
      ((upd T n (ringAdd (T n) w)) k).duplicateRing.length := by
  by_cases hk : k = n
  · subst hk
    simp [upd, ringAdd, hT k]
  · simp [upd, hk]
    exact hT k

theorem setHashLock_refInv (s : HashZoneState) (v : Nat) (nl : Option Nat)
    (href : hashRefInv s) (hmem : hashMemInv s) :
    hashRefInv (setHashLock s v nl) := by
  cases hold : (s.vioTable v).hashLock with
  | none =>
    cases nl with
    | none =>
      intro k
      simp only [setHashLock, hold]
      exact href k
    | some n =>
      intro k
      simp only [setHashLock, hold, setVioLock]
      exact refTable_add href n v k
  | some ol =>
    have hrm := fun k => refTable_remove href (hmem v ol hold) k
    cases nl with
    | none =>
      intro k
      simp only [setHashLock, hold, setVioLock]
      exact hrm k
    | some n =>
      intro k
      simp only [setHashLock, hold, setVioLock]
      exact refTable_add hrm n v k

theorem setHashLock_waiters (s : HashZoneState) (v : Nat) (nl : Option Nat) (k : Nat) :
    ((setHashLock s v nl).lockTable k).waiters = (s.lockTable k).waiters :=
  (setHashLock_lock_misc s v nl k).2.2.2.1

theorem setHashLock_updateAdvice (s : HashZoneState) (v : Nat) (nl : Option Nat) (k : Nat) :
    ((setHashLock s v nl).lockTable k).updateAdvice = (s.lockTable k).updateAdvice :=
  (setHashLock_lock_misc s v nl k).2.2.2.2.1

theorem setHashLock_state (s : HashZoneState) (v : Nat) (nl : Option Nat) (k : Nat) :
    ((setHashLock s v nl).lockTable k).state = (s.lockTable k).state :=
  (setHashLock_lock_misc s v nl k).2.1

theorem setHashLock_agent (s : HashZoneState) (v : Nat) (nl : Option Nat) (k : Nat) :
    ((setHashLock s v nl).lockTable k).agent = (s.lockTable k).agent :=
  (setHashLock_lock_misc s v nl k).2.2.1

theorem updLockF_same (s : HashZoneState) (l : Nat) (f : HashLock → HashLock) :
    (updLockF s l f).lockTable l = f (s.lockTable l) := by
  simp [updLockF]

theorem updLockF_other (s : HashZoneState) (l : Nat) (f : HashLock → HashLock)
    {k : Nat} (h : ¬k = l) : (updLockF s l f).lockTable k = s.lockTable k := by
  simp [updLockF, h]

theorem updLockF_frame (s : HashZoneState) (l : Nat) (f : HashLock → HashLock) :
    (updLockF s l f).vioTable = s.vioTable ∧
    (updLockF s l f).lockMap = s.lockMap ∧
    (updLockF s l f).lockPool = s.lockPool :=
  ⟨rfl, rfl, rfl⟩

theorem updVioF_frame (s : HashZoneState) (v : Nat) (f : DataVioState → DataVioState) :
    (updVioF s v f).lockTable = s.lockTable ∧
    (updVioF s v f).lockMap = s.lockMap ∧
    (updVioF s v f).lockPool = s.lockPool :=
  ⟨rfl, rfl, rfl⟩

theorem updVioF_same (s : HashZoneState) (v : Nat) (f : DataVioState → DataVioState) :
    (updVioF s v f).vioTable v = f (s.vioTable v) := by
  simp [updVioF]

theorem updVioF_other (s : HashZoneState) (v : Nat) (f : DataVioState → DataVioState)
    {u : Nat} (h : ¬u = v) : (updVioF s v f).vioTable u = s.vioTable u := by
  simp [updVioF, h]

theorem setAgent_same (s : HashZoneState) (l : Nat) (a : Option Nat) :
    (setAgent s l a).lockTable l = { s.lockTable l with agent := a } := by
  simp [setAgent, upd]

theorem setAgent_other (s : HashZoneState) (l : Nat) (a : Option Nat) {k : Nat}
    (h : ¬k = l) : (setAgent s l a).lockTable k = s.lockTable k := by
  simp [setAgent, upd, h]

theorem setAgent_frame (s : HashZoneState) (l : Nat) (a : Option Nat) :
    (setAgent s l a).vioTable = s.vioTable ∧
    (setAgent s l a).lockMap = s.lockMap ∧
    (setAgent s l a).lockPool = s.lockPool :=
  ⟨rfl, rfl, rfl⟩

theorem setHashLockState_same (s : HashZoneState) (l : Nat) (st : HashLockState) :
    (setHashLockState s l st).lockTable l = { s.lockTable l with state := st } := by
  simp [setHashLockState, upd]

theorem setHashLockState_frame (s : HashZoneState) (l : Nat) (st : HashLockState) :
    (setHashLockState s l st).vioTable = s.vioTable ∧
    (setHashLockState s l st).lockMap = s.lockMap ∧
    (setHashLockState s l st).lockPool = s.lockPool :=
  ⟨rfl, rfl, rfl⟩

theorem enterForkedLock_facts (s : HashZoneState) (nl w : Nat) :
    ((enterForkedLock s nl w).lockTable nl).waiters = (s.lockTable nl).waiters ++ [w] ∧
    (∀ k, ((enterForkedLock s nl w).lockTable k).updateAdvice =
        (s.lockTable k).updateAdvice ∧
      ((enterForkedLock s nl w).lockTable k).state = (s.lockTable k).state ∧
      ((enterForkedLock s nl w).lockTable k).agent = (s.lockTable k).agent) ∧
    (enterForkedLock s nl w).lockMap = s.lockMap ∧
    (enterForkedLock s nl w).lockPool = s.lockPool ∧
    ((enterForkedLock s nl w).vioTable w).hashLock = some nl ∧
    (∀ u, ¬u = w → (enterForkedLock s nl w).vioTable u = s.vioTable u) ∧
    (∀ u, ((enterForkedLock s nl w).vioTable u).hasAllocation =
      (s.vioTable u).hasAllocation) := by
  unfold enterForkedLock waitOnHashLock
  refine ⟨?_, ?_, ?_, ?_, ?_, ?_, ?_⟩
  · rw [updLockF_same]
    rw [setHashLock_waiters]
  · intro k
    by_cases hk : k = nl
    · subst hk
      rw [updLockF_same]
      exact ⟨setHashLock_updateAdvice .., setHashLock_state .., setHashLock_agent ..⟩
    · rw [updLockF_other _ _ _ hk]
      exact ⟨setHashLock_updateAdvice .., setHashLock_state .., setHashLock_agent ..⟩
  · rw [(updLockF_frame _ _ _).2.1, (setHashLock_maps _ _ _).1]
  · rw [(updLockF_frame _ _ _).2.2, (setHashLock_maps _ _ _).2.1]
  · rw [show (updLockF (setHashLock s w (some nl)) nl
        (fun lk => { lk with waiters := lk.waiters ++ [w] })).vioTable =
        (setHashLock s w (some nl)).vioTable from rfl]
    exact setHashLock_vio_join s w nl
  · intro u hu
    rw [show (updLockF (setHashLock s w (some nl)) nl
        (fun lk => { lk with waiters := lk.waiters ++ [w] })).vioTable =
        (setHashLock s w (some nl)).vioTable from rfl]
    exact setHashLock_vio_other s w (some nl) hu
  · intro u
    rw [show (updLockF (setHashLock s w (some nl)) nl
        (fun lk => { lk with waiters := lk.waiters ++ [w] })).vioTable =
        (setHashLock s w (some nl)).vioTable from rfl]
    exact (setHashLock_vio_frame s w (some nl) u).1

theorem forkFold (nl : Nat) :
    ∀ (ws : List Nat) (s : HashZoneState),
      ((ws.foldl (fun acc w => enterForkedLock acc nl w) s).lockTable nl).waiters =
        (s.lockTable nl).waiters ++ ws ∧
      (∀ k, ((ws.foldl (fun acc w => enterForkedLock acc nl w) s).lockTable k).updateAdvice =
          (s.lockTable k).updateAdvice ∧
        ((ws.foldl (fun acc w => enterForkedLock acc nl w) s).lockTable k).state =
          (s.lockTable k).state ∧
        ((ws.foldl (fun acc w => enterForkedLock acc nl w) s).lockTable k).agent =
          (s.lockTable k).agent) ∧
      (ws.foldl (fun acc w => enterForkedLock acc nl w) s).lockMap = s.lockMap ∧
      (ws.foldl (fun acc w => enterForkedLock acc nl w) s).lockPool = s.lockPool ∧
      (∀ u, ((ws.foldl (fun acc w => enterForkedLock acc nl w) s).vioTable u).hashLock =
          (s.vioTable u).hashLock ∨
        ((ws.foldl (fun acc w => enterForkedLock acc nl w) s).vioTable u).hashLock =
          some nl) ∧
      (∀ w ∈ ws, ((ws.foldl (fun acc w => enterForkedLock acc nl w) s).vioTable w).hashLock =
        some nl) ∧
      (∀ u, ((ws.foldl (fun acc w => enterForkedLock acc nl w) s).vioTable u).hasAllocation =
        (s.vioTable u).hasAllocation) := by
  intro ws
  induction ws with
  | nil =>
    intro s
    refine ⟨by simp, fun k => ⟨rfl, rfl, rfl⟩, rfl, rfl, fun u => Or.inl rfl, ?_, fun u => rfl⟩
    intro w hw
    simp at hw
  | cons w ws ih =>
    intro s
    obtain ⟨e1, e2, e3, e4, e5, e6, e7⟩ := enterForkedLock_facts s nl w
    obtain ⟨i1, i2, i3, i4, i5, i6, i7⟩ := ih (enterForkedLock s nl w)
    rw [List.foldl_cons]
    refine ⟨?_, ?_, ?_, ?_, ?_, ?_, ?_⟩
    · rw [i1, e1]
      simp
    · intro k
      obtain ⟨b1, b2, b3⟩ := e2 k
      obtain ⟨a1, a2, a3⟩ := i2 k
      exact ⟨a1.trans b1, a2.trans b2, a3.trans b3⟩
    · rw [i3, e3]
    · rw [i4, e4]
    · intro u
      rcases i5 u with h | h
      · rw [h]
        by_cases hu : u = w
        · subst hu
          exact Or.inr e5
        · rw [e6 u hu]
          exact Or.inl rfl
      · exact Or.inr h
    · intro x hx
      rcases List.mem_cons.mp hx with rfl | hx
      · rcases i5 x with h | h
        · rw [h]
          exact e5
        · exact h
      · exact i6 x hx
    · intro u
      rw [i7 u, e7 u]

theorem setHashLockState_other (s : HashZoneState) (l : Nat) (st : HashLockState)
    {k : Nat} (h : ¬k = l) : (setHashLockState s l st).lockTable k = s.lockTable k := by
  simp [setHashLockState, upd, h]

theorem startWriting_alloc (s : HashZoneState) (l a : Nat)
    (ha : (s.vioTable a).hasAllocation = true) :
    startWriting s l a = setHashLockState s l HashLockState.writing := by
  unfold startWriting
  dsimp only
  simp only [show (setHashLockState s l HashLockState.writing).vioTable = s.vioTable
    from rfl, ha]
  simp
  intro h
  rw [show (setHashLockState s l HashLockState.writing).vioTable = s.vioTable
    from rfl, ha] at h
  simp at h

theorem updLockF_vioTable (s : HashZoneState) (l : Nat) (f : HashLock → HashLock) :
    (updLockF s l f).vioTable = s.vioTable := rfl

theorem updLockF_lockMap (s : HashZoneState) (l : Nat) (f : HashLock → HashLock) :
    (updLockF s l f).lockMap = s.lockMap := rfl

theorem updLockF_lockPool (s : HashZoneState) (l : Nat) (f : HashLock → HashLock) :
    (updLockF s l f).lockPool = s.lockPool := rfl

theorem updVioF_lockTable (s : HashZoneState) (v : Nat) (f : DataVioState → DataVioState) :
    (updVioF s v f).lockTable = s.lockTable := rfl

theorem updVioF_lockMap (s : HashZoneState) (v : Nat) (f : DataVioState → DataVioState) :
    (updVioF s v f).lockMap = s.lockMap := rfl

theorem setAgent_vioTable (s : HashZoneState) (l : Nat) (a : Option Nat) :
    (setAgent s l a).vioTable = s.vioTable := rfl

theorem setAgent_lockMap (s : HashZoneState) (l : Nat) (a : Option Nat) :
    (setAgent s l a).lockMap = s.lockMap := rfl

theorem setHashLockState_vioTable (s : HashZoneState) (l : Nat) (st : HashLockState) :
    (setHashLockState s l st).vioTable = s.vioTable := rfl

theorem setHashLockState_lockMap (s : HashZoneState) (l : Nat) (st : HashLockState) :
    (setHashLockState s l st).lockMap = s.lockMap := rfl

theorem setHashLock_hasAllocation (s : HashZoneState) (v : Nat) (nl : Option Nat)
    (u : Nat) :
    ((setHashLock s v nl).vioTable u).hasAllocation = (s.vioTable u).hasAllocation :=
  (setHashLock_vio_frame s v nl u).1

theorem setHashLockState_waiters (s : HashZoneState) (l : Nat) (st : HashLockState)
    (k : Nat) :
    ((setHashLockState s l st).lockTable k).waiters = (s.lockTable k).waiters := by
  by_cases hk : k = l
  · subst hk
    rw [setHashLockState_same]
  · rw [setHashLockState_other _ _ _ hk]

theorem setHashLockState_updateAdvice (s : HashZoneState) (l : Nat)
    (st : HashLockState) (k : Nat) :
    ((setHashLockState s l st).lockTable k).updateAdvice =
      (s.lockTable k).updateAdvice := by
  by_cases hk : k = l
  · subst hk
    rw [setHashLockState_same]
  · rw [setHashLockState_other _ _ _ hk]

theorem setHashLockState_agent (s : HashZoneState) (l : Nat) (st : HashLockState)
    (k : Nat) :
    ((setHashLockState s l st).lockTable k).agent = (s.lockTable k).agent := by
  by_cases hk : k = l
  · subst hk
    rw [setHashLockState_same]
  · rw [setHashLockState_other _ _ _ hk]

theorem setHashLockState_state_self (s : HashZoneState) (l : Nat) (st : HashLockState) :
    ((setHashLockState s l st).lockTable l).state = st := by
  rw [setHashLockState_same]

theorem setAgent_waiters (s : HashZoneState) (l : Nat) (a : Option Nat) (k : Nat) :
    ((setAgent s l a).lockTable k).waiters = (s.lockTable k).waiters := by
  by_cases hk : k = l
  · subst hk
    rw [setAgent_same]
  · rw [setAgent_other _ _ _ hk]

theorem setAgent_updateAdvice (s : HashZoneState) (l : Nat) (a : Option Nat) (k : Nat) :
    ((setAgent s l a).lockTable k).updateAdvice = (s.lockTable k).updateAdvice := by
  by_cases hk : k = l
  · subst hk
    rw [setAgent_same]
  · rw [setAgent_other _ _ _ hk]

theorem setAgent_agent_self (s : HashZoneState) (l : Nat) (a : Option Nat) :
    ((setAgent s l a).lockTable l).agent = a := by
  rw [setAgent_same]

theorem updVioF_isDup_hashLock (s : HashZoneState) (v u : Nat) :
    ((updVioF s v (fun dv => { dv with isDuplicate := false })).vioTable u).hashLock =
      (s.vioTable u).hashLock := by
  by_cases hu : u = v
  · subst hu
    rw [updVioF_same]
  · rw [updVioF_other _ _ _ hu]

theorem updVioF_isDup_hasAlloc (s : HashZoneState) (v u : Nat) :
    ((updVioF s v (fun dv => { dv with isDuplicate := false })).vioTable u).hasAllocation =
      (s.vioTable u).hasAllocation := by
  by_cases hu : u = v
  · subst hu
    rw [updVioF_same]
  · rw [updVioF_other _ _ _ hu]

theorem forkFold_waiters (nl : Nat) (ws : List Nat) (s : HashZoneState) :
    ((ws.foldl (fun acc w => enterForkedLock acc nl w) s).lockTable nl).waiters =
      (s.lockTable nl).waiters ++ ws :=
  (forkFold nl ws s).1

theorem forkFold_updateAdvice (nl : Nat) (ws : List Nat) (s : HashZoneState) (k : Nat) :
    ((ws.foldl (fun acc w => enterForkedLock acc nl w) s).lockTable k).updateAdvice =
      (s.lockTable k).updateAdvice :=
  ((forkFold nl ws s).2.1 k).1

theorem forkFold_lstate (nl : Nat) (ws : List Nat) (s : HashZoneState) (k : Nat) :
    ((ws.foldl (fun acc w => enterForkedLock acc nl w) s).lockTable k).state =
      (s.lockTable k).state :=
  ((forkFold nl ws s).2.1 k).2.1

theorem forkFold_agent (nl : Nat) (ws : List Nat) (s : HashZoneState) (k : Nat) :
    ((ws.foldl (fun acc w => enterForkedLock acc nl w) s).lockTable k).agent =
      (s.lockTable k).agent :=
  ((forkFold nl ws s).2.1 k).2.2

theorem forkFold_lockMap (nl : Nat) (ws : List Nat) (s : HashZoneState) :
    (ws.foldl (fun acc w => enterForkedLock acc nl w) s).lockMap = s.lockMap :=
  (forkFold nl ws s).2.2.1

theorem forkFold_hashLock_mem (nl : Nat) (ws : List Nat) (s : HashZoneState)
    {w : Nat} (hw : w ∈ ws) :
    ((ws.foldl (fun acc w => enterForkedLock acc nl w) s).vioTable w).hashLock =
      some nl :=
  (forkFold nl ws s).2.2.2.2.2.1 w hw

theorem forkFold_hashLock_or (nl : Nat) (ws : List Nat) (s : HashZoneState) (u : Nat) :
    ((ws.foldl (fun acc w => enterForkedLock acc nl w) s).vioTable u).hashLock =
      (s.vioTable u).hashLock ∨
    ((ws.foldl (fun acc w => enterForkedLock acc nl w) s).vioTable u).hashLock =
      some nl :=
  (forkFold nl ws s).2.2.2.2.1 u

theorem forkFold_hasAllocation (nl : Nat) (ws : List Nat) (s : HashZoneState) (u : Nat) :
    ((ws.foldl (fun acc w => enterForkedLock acc nl w) s).vioTable u).hasAllocation =
      (s.vioTable u).hasAllocation :=
  (forkFold nl ws s).2.2.2.2.2.2 u

/-- C8: in `acquireHashLock`, when the acquired lock's ring of member
data_vios is non-empty and the first member's data differs from the
entrant's, the zone's collision counter is bumped and the call returns
success (`Except.ok`, not an error) without setting the entrant's `hashLock`
pointer, so the entrant proceeds without deduplication. -/
theorem C8_hash_collision_bypasses (s : HashZoneState) (v l holder : Nat)
    (t : List Nat)
    (hpre : (s.vioTable v).hashLock = none)
    (hrec : (s.vioTable v).recoverySequenceNumber = 0)
    (hmap : s.lockMap ((s.vioTable v).chunkName) = some l)
    (hring : (s.lockTable l).duplicateRing = holder :: t)
    (hdata : ¬(s.vioTable holder).dataBlock = (s.vioTable v).dataBlock) :
    acquireHashLock s v =
      Except.ok { s with collisionCount := s.collisionCount + 1 } ∧
    (({ s with collisionCount := s.collisionCount + 1 } :
        HashZoneState).vioTable v).hashLock = none := by
  have hcmp : compareDataVios (s.vioTable holder) (s.vioTable v) = false := by
    simp [compareDataVios, hdata]
  have hassert : assertHashLockPreconditions (s.vioTable v) = Except.ok () := by
    simp [assertHashLockPreconditions, hpre, hrec]
  have hacq : acquireHashLockFromZone s ((s.vioTable v).chunkName) none =
      Except.ok (s, l) := by
    unfold acquireHashLockFromZone
    dsimp only
    rw [hmap]
  have hcol : isHashCollision s l v =
      (true, { s with collisionCount := s.collisionCount + 1 }) := by
    unfold isHashCollision
    rw [hring]
    dsimp only
    rw [hcmp]
    simp
  unfold acquireHashLock
  rw [hassert]
  dsimp only
  rw [hacq]
  dsimp only
  rw [hcol]
  exact ⟨rfl, hpre⟩

/-- Witness for C8 on the concrete zone: data_vio 2 (data 7) collides with
holder 1 (data 42) on lock 0. -/
theorem C8_hash_collision_bypasses_witness :
    acquireHashLock sampleZone 2 =
      Except.ok { sampleZone with collisionCount := sampleZone.collisionCount + 1 } ∧
    (({ sampleZone with collisionCount := sampleZone.collisionCount + 1 } :
        HashZoneState).vioTable 2).hashLock = none :=
  C8_hash_collision_bypasses sampleZone 2 0 1 [] (by decide) (by decide) (by decide)
    (by decide) (by decide)

theorem returnHashLockToZone_pool (s : HashZoneState) (l : Nat) :
    l ∈ (returnHashLockToZone s l).lockPool := by
  unfold returnHashLockToZone
  dsimp only
  exact List.mem_cons_self _ _

/-- C9: a hash lock's `referenceCount` always equals the number of data_vios
on its `duplicateRing` — `setHashLock` preserves the zone-wide invariant for
every join/leave — and `releaseHashLock` moves the lock to DESTROYING and
returns it to the zone exactly when the reference count reaches zero,
otherwise leaving the lock mapped and its state unchanged. -/
theorem C9_reference_count_ring (s : HashZoneState) (v l : Nat)
    (href : hashRefInv s) (hmem : hashMemInv s)
    (hlock : (s.vioTable v).hashLock = some l) :
    (∀ nl, hashRefInv (setHashLock s v nl)) ∧
    (((setHashLock s v none).lockTable l).referenceCount = 0 →
      releaseHashLock s v =
        returnHashLockToZone
          (setHashLockState (setHashLock s v none) l HashLockState.destroying) l ∧
      l ∈ (releaseHashLock s v).lockPool) ∧
    (0 < ((setHashLock s v none).lockTable l).referenceCount →
      releaseHashLock s v = setHashLock s v none ∧
      (releaseHashLock s v).lockMap = s.lockMap ∧
      ((releaseHashLock s v).lockTable l).state = (s.lockTable l).state) := by
  have hrel : releaseHashLock s v =
      (if 0 < ((setHashLock s v none).lockTable l).referenceCount
        then setHashLock s v none
        else returnHashLockToZone
          (setHashLockState (setHashLock s v none) l HashLockState.destroying) l) := by
    unfold releaseHashLock
    rw [hlock]
  refine ⟨fun nl => setHashLock_refInv s v nl href hmem, ?_, ?_⟩
  · intro h0
    have he : releaseHashLock s v =
        returnHashLockToZone
          (setHashLockState (setHashLock s v none) l HashLockState.destroying) l := by
      rw [hrel, if_neg (by omega)]
    refine ⟨he, ?_⟩
    rw [he]
    exact returnHashLockToZone_pool _ _
  · intro hpos
    have he : releaseHashLock s v = setHashLock s v none := by
      rw [hrel, if_pos hpos]
    refine ⟨he, ?_, ?_⟩
    · rw [he]
      exact (setHashLock_maps s v none).1
    · rw [he]
      exact setHashLock_state s v none l

/-- Witness for C9: data_vio 1 is the last member of lock 0 in the concrete
zone, so releasing it destroys the lock and pools it. -/
theorem C9_reference_count_ring_witness :
    hashRefInv (setHashLock sampleZone 1 none) ∧
    releaseHashLock sampleZone 1 =
      returnHashLockToZone
        (setHashLockState (setHashLock sampleZone 1 none) 0 HashLockState.destroying)
        0 ∧
    0 ∈ (releaseHashLock sampleZone 1).lockPool := by
  have hm : hashMemInv sampleZone := by
    intro u k h
    by_cases hu : u = 1
    · subst hu
      simp [sampleZone, sampleVioTable] at h
      subst h
      simp [sampleZone, sampleLockTable]
    · simp [sampleZone, sampleVioTable, hu] at h
  have h := C9_reference_count_ring sampleZone 1 0 (fun k => rfl) hm rfl
  exact ⟨h.1 none, (h.2.1 (by decide)).1, (h.2.1 (by decide)).2⟩

theorem setHashLock_lockMap (s : HashZoneState) (v : Nat) (nl : Option Nat) :
    (setHashLock s v nl).lockMap = s.lockMap :=
  (setHashLock_maps s v nl).1

theorem forkFold_hashLock_some (nl : Nat) (ws : List Nat) (s : HashZoneState)
    (u : Nat) (h : (s.vioTable u).hashLock = some nl) :
    ((ws.foldl (fun acc w => enterForkedLock acc nl w) s).vioTable u).hashLock =
      some nl := by
  rcases forkFold_hashLock_or nl ws s u with h1 | h1
  · rw [h1, h]
  · exact h1

/-- C4: when a data_vio on the dedupe path cannot claim an increment from the
duplicate PBN lock (no increments remain), the lock is forked: the call rolls
over to `forkHashLock`, which maps the chunk name to a fresh lock from the
pool, clears the old lock's `updateAdvice` and sets the new lock's, transfers
every waiter of the old lock onto the new lock via `enterForkedLock`, makes
the data_vio the new lock's agent, and puts the new lock in WRITING. -/
theorem C4_fork_on_rollover (s : HashZoneState) (ol v nl : Nat)
    (rest ws : List Nat)
    (hpool : s.lockPool = nl :: rest)
    (hne : ¬ol = nl)
    (hvl : (s.vioTable v).hashLock = some ol)
    (halloc : (s.vioTable v).hasAllocation = true)
    (hws : (s.lockTable ol).waiters = ws)
    (hclaim : (s.lockTable ol).duplicateLockIncrements = 0) :
    launchDedupe s ol v false = forkHashLock s ol v ∧
    (forkHashLock s ol v).lockMap ((s.vioTable v).chunkName) = some nl ∧
    ((forkHashLock s ol v).lockTable ol).updateAdvice = false ∧
    ((forkHashLock s ol v).lockTable nl).updateAdvice = true ∧
    ((forkHashLock s ol v).lockTable nl).waiters = ws ∧
    (∀ w ∈ ws, ((forkHashLock s ol v).vioTable w).hashLock = some nl) ∧
    ((forkHashLock s ol v).lockTable nl).agent = some v ∧
    ((forkHashLock s ol v).lockTable nl).state = HashLockState.writing ∧
    ((forkHashLock s ol v).vioTable v).hashLock = some nl := by
  have hne' : ¬nl = ol := fun h => hne h.symm
  have hld : launchDedupe s ol v false = forkHashLock s ol v := by
    simp [launchDedupe, hclaim, claimPBNLockIncrement]
  have hacq : acquireHashLockFromZone s ((s.vioTable v).chunkName) (some ol) =
      Except.ok ({ s with
          lockPool := rest
          lockTable := upd s.lockTable nl (freshHashLock ((s.vioTable v).chunkName))
          lockMap := upd s.lockMap ((s.vioTable v).chunkName) (some nl) }, nl) := by
    unfold acquireHashLockFromZone
    dsimp only
    rw [hpool]
  refine ⟨hld, ?_⟩
  unfold forkHashLock
  rw [hacq]
  dsimp only
  refine ⟨?_, ?_, ?_, ?_, ?_, ?_, ?_, ?_⟩
  · simp [startWriting_alloc, updVioF_isDup_hasAlloc, forkFold_hasAllocation,
      updLockF_vioTable, setAgent_vioTable, setHashLock_hasAllocation, halloc,
      setHashLockState_lockMap, updVioF_lockMap, forkFold_lockMap, updLockF_lockMap,
      setAgent_lockMap, setHashLock_lockMap]
  · simp [startWriting_alloc, updVioF_isDup_hasAlloc, forkFold_hasAllocation,
      updLockF_vioTable, setAgent_vioTable, setHashLock_hasAllocation, halloc,
      setHashLockState_updateAdvice, updVioF_lockTable, forkFold_updateAdvice,
      updLockF_same, updLockF_other, setAgent_other, setHashLock_updateAdvice,
      hne, hne']
  · simp [startWriting_alloc, updVioF_isDup_hasAlloc, forkFold_hasAllocation,
      updLockF_vioTable, setAgent_vioTable, setHashLock_hasAllocation, halloc,
      setHashLockState_updateAdvice, updVioF_lockTable, forkFold_updateAdvice,
      updLockF_same, updLockF_other, setAgent_same, setHashLock_updateAdvice,
      hne, hne']
  · simp [startWriting_alloc, updVioF_isDup_hasAlloc, forkFold_hasAllocation,
      updLockF_vioTable, setAgent_vioTable, setHashLock_hasAllocation, halloc,
      setHashLockState_waiters, updVioF_lockTable, forkFold_waiters,
      updLockF_same, updLockF_other, setAgent_same, setAgent_other,
      setHashLock_waiters, hne, hne', hws, freshHashLock]
  · intro w hw
    simp [startWriting_alloc, updVioF_isDup_hasAlloc, forkFold_hasAllocation,
      updLockF_vioTable, setAgent_vioTable, setHashLock_hasAllocation, halloc,
      setHashLockState_vioTable, updVioF_isDup_hashLock, forkFold_hashLock_mem,
      updLockF_same, updLockF_other, setAgent_same, setAgent_other,
      setHashLock_waiters, hne, hne', hws, freshHashLock, hw]
  · simp [startWriting_alloc, updVioF_isDup_hasAlloc, forkFold_hasAllocation,
      updLockF_vioTable, setAgent_vioTable, setHashLock_hasAllocation, halloc,
      setHashLockState_agent, updVioF_lockTable, forkFold_agent,
      updLockF_other, setAgent_same, hne, hne']
  · simp [startWriting_alloc, updVioF_isDup_hasAlloc, forkFold_hasAllocation,
      updLockF_vioTable, setAgent_vioTable, setHashLock_hasAllocation, halloc,
      setHashLockState_state_self]
  · simp [startWriting_alloc, updVioF_isDup_hasAlloc, forkFold_hasAllocation,
      updLockF_vioTable, setAgent_vioTable, setHashLock_hasAllocation, halloc,
      setHashLockState_vioTable, updVioF_isDup_hashLock, forkFold_hashLock_some,
      setHashLock_vio_join]

/-- Witness for C4: in the concrete mid-dedupe zone, data_vio 2 rolls lock 0
over to fresh lock 5 from the pool, carrying waiter 3 along. -/
theorem C4_fork_on_rollover_witness :
    launchDedupe forkZone 0 2 false = forkHashLock forkZone 0 2 ∧
    (forkHashLock forkZone 0 2).lockMap ((forkZone.vioTable 2).chunkName) = some 5 ∧
    ((forkHashLock forkZone 0 2).lockTable 0).updateAdvice = false ∧
    ((forkHashLock forkZone 0 2).lockTable 5).updateAdvice = true ∧
    ((forkHashLock forkZone 0 2).lockTable 5).waiters = [3] ∧
    (∀ w ∈ ([3] : List Nat),
      ((forkHashLock forkZone 0 2).vioTable w).hashLock = some 5) ∧
    ((forkHashLock forkZone 0 2).lockTable 5).agent = some 2 ∧
    ((forkHashLock forkZone 0 2).lockTable 5).state = HashLockState.writing ∧
    ((forkHashLock forkZone 0 2).vioTable 2).hashLock = some 5 :=
  C4_fork_on_rollover forkZone 0 2 5 [] [3] (by decide) (by decide) (by decide)
    (by decide) (by decide) (by decide)
